import Mathlib

/-!
# osgEarth `ObjectIDPicker`: spiral pixel search and pick query

A shallow embedding of `src/osgEarth/ObjectIDPicker.cpp`.

Modelling conventions.
* `int` values are elements of `ℤ`; signed overflow (undefined behaviour in C++) is outside the
  model.  The conversion `int → unsigned` performed by the constructor's initialiser
  `_maxRing(maxDist)` is modelled as reduction modulo `2^32`.
* `unsigned` fields are natural numbers and `(int)_ring` is the same number: `_ring` could only
  wrap around after `_x` has overflowed.
* A `float` or `double` value is the rational it denotes.  Every floating-point operation is
  the exact operation followed by rounding to the nearest value of the format, ties to even
  (`toFloat`: 24 bits of precision, `toDouble`: 53 bits); results beyond the largest finite
  value, infinities and NaN are outside the model.  The cast `(int)(...)` truncates toward
  zero.  A quotient by a zero viewport extent has the value Lean gives it; the statements about
  `pick` hold for every value of `u` and `v`.
* A pixel of the pick image is represented by the four values `(unsigned)(c*255.0)` of its
  channels, i.e. by the operands of the shifts in `pick`.
* Loops carry a fuel argument; `none` means that the fuel ran out.
-/

namespace osgEarth

/-! ## SpiralIterator -/

/-- Rounding of a rational to the nearest integer, ties to the even one. -/
def roundHalfEven (r : ℚ) : Int :=
  if r - ⌊r⌋ < 1 / 2 then ⌊r⌋
  else if 1 / 2 < r - ⌊r⌋ then ⌊r⌋ + 1
  else if ⌊r⌋ % 2 = 0 then ⌊r⌋ else ⌊r⌋ + 1

/-- The exponent of the unit in the last place of `q` in a binary floating-point format with
`p` bits of precision whose least subnormal is `2 ^ emin`. -/
def ulpExp (p : Nat) (emin : Int) (q : ℚ) : Int := max (Int.log 2 |q| - ((p : Int) - 1)) emin

/-- Rounding to the nearest value of the binary floating-point format, ties to even. -/
def roundBinary (p : Nat) (emin : Int) (q : ℚ) : ℚ :=
  (roundHalfEven (q / (2 : ℚ) ^ ulpExp p emin q) : ℚ) * (2 : ℚ) ^ ulpExp p emin q

/-- Rounding to `float` (IEEE 754 binary32). -/
def toFloat (q : ℚ) : ℚ := roundBinary 24 (-149) q

/-- Rounding to `double` (IEEE 754 binary64). -/
def toDouble (q : ℚ) : ℚ := roundBinary 53 (-1074) q

/-- The C++ conversion `(int)q` of a floating-point value: truncation toward zero. -/
def castInt (q : ℚ) : Int := Int.tdiv q.num q.den

/-- The C++ conversion of an `int` to `unsigned` (32 bit). -/
def toUnsigned (i : Int) : Nat := (i % 2 ^ 32).toNat

/-- The fields of `struct SpiralIterator`. -/
structure SpiralIterator where
  _ring : Nat
  _maxRing : Nat
  _leg : Nat
  _x : Int
  _y : Int
  _w : Int
  _h : Int
  _offsetX : Int
  _offsetY : Int
  _count : Nat
deriving DecidableEq, Repr

namespace SpiralIterator

/-- The constructor `SpiralIterator(int w, int h, int maxDist, float u, float v)`; `u` and `v`
are the values of the `float` arguments.  `(float)w` rounds `w` to `float` and the product is
the `float` product. -/
def new (w h maxDist : Int) (u v : ℚ) : SpiralIterator :=
  { _w := w, _h := h, _maxRing := toUnsigned maxDist, _count := 0, _ring := 1, _leg := 0,
    _x := 0, _y := 0,
    _offsetX := castInt (toFloat (u * toFloat (w : ℚ))),
    _offsetY := castInt (toFloat (v * toFloat (h : ℚ))) }

/-- The member `int s() const`. -/
def s (it : SpiralIterator) : Int := it._x + it._offsetX

/-- The member `int t() const`. -/
def t (it : SpiralIterator) : Int := it._y + it._offsetY

/-- The `switch(_leg)` statement in the body of the `do ... while` loop of `next()`. -/
def spiralStep (it : SpiralIterator) : SpiralIterator :=
  match it._leg with
  | 0 =>
    let it1 := { it with _x := it._x + 1 }
    if it1._x = (it1._ring : Int) then { it1 with _leg := it1._leg + 1 } else it1
  | 1 =>
    let it1 := { it with _y := it._y + 1 }
    if it1._y = (it1._ring : Int) then { it1 with _leg := it1._leg + 1 } else it1
  | 2 =>
    let it1 := { it with _x := it._x - 1 }
    if -it1._x = (it1._ring : Int) then { it1 with _leg := it1._leg + 1 } else it1
  | 3 =>
    let it1 := { it with _y := it._y - 1 }
    if -it1._y = (it1._ring : Int) then { it1 with _leg := 0, _ring := it1._ring + 1 } else it1
  | _ => it

/-- The test `_x+_offsetX < 0 || _x+_offsetX >= _w || _y+_offsetY < 0 || _y+_offsetY >= _h`. -/
def outside (it : SpiralIterator) : Prop :=
  it._x + it._offsetX < 0 ∨ it._x + it._offsetX ≥ it._w ∨
    it._y + it._offsetY < 0 ∨ it._y + it._offsetY ≥ it._h

instance decidableOutside (it : SpiralIterator) : Decidable it.outside := by
  unfold outside; infer_instance

/-- The loop `do { switch ... } while (_ring <= _maxRing && (out of bounds))` of `next()`. -/
def doWhile : Nat → SpiralIterator → Option SpiralIterator
  | 0, _ => none
  | fuel + 1, it =>
    let it1 := it.spiralStep
    if it1._ring ≤ it1._maxRing ∧ it1.outside then doWhile fuel it1 else some it1

/-- The member `bool next()`: the returned flag and the iterator afterwards. -/
def next (fuel : Nat) (it : SpiralIterator) : Option (Bool × SpiralIterator) :=
  if it._count = 0 then
    if it._offsetX < 0 ∨ it._offsetX ≥ it._w ∨ it._offsetY < 0 ∨ it._offsetY ≥ it._h then
      some (false, it)
    else
      some (true, { it with _count := it._count + 1 })
  else
    match doWhile fuel it with
    | none => none
    | some it1 => some (decide (it1._ring ≤ it1._maxRing), it1)

/-- The outcomes of `k` successive calls of `next()`: for each call the returned flag and the
iterator as the caller sees it after the call. -/
def calls (fuel : Nat) : Nat → SpiralIterator → Option (List (Bool × SpiralIterator))
  | 0, _ => some []
  | k + 1, it =>
    match it.next fuel with
    | none => none
    | some (b, it1) =>
      match calls fuel k it1 with
      | none => none
      | some rest => some ((b, it1) :: rest)

end SpiralIterator

/-- The iterator states exposed by the calls of `next()` that returned `true`. -/
def successes (l : List (Bool × SpiralIterator)) : List SpiralIterator :=
  (l.filter (fun e => e.1)).map (fun e => e.2)

/-- The coordinates `(s(), t())` a caller reads after each call that returned `true`. -/
def coords (l : List SpiralIterator) : List (Int × Int) :=
  l.map (fun it => (it.s, it.t))

/-- The calls that return `true` before the first call that returns `false`. -/
def beforeFirstFalse (l : List (Bool × SpiralIterator)) : List (Bool × SpiralIterator) :=
  l.takeWhile (fun e => e.1)

/-! ## ObjectIDPicker::pick -/

/-- The enumeration `ObjectIDPicker::ActionType`. -/
inductive ActionType
  | ACTION_HOVER
  | ACTION_CLICK
deriving DecidableEq, Repr

/-- An `ObjectID`: an unsigned 32-bit integer. -/
abbrev ObjectID := Nat

/-- Modelled from the spec: the macro `OSGEARTH_OBJECTID_EMPTY` is defined outside the sources;
the spec reserves the value 0 as the empty sentinel and the comment at its use in `pick` reads
"fire the functions with id=0 (empty)". -/
def OSGEARTH_OBJECTID_EMPTY : ObjectID := 0

/-- A notification fired by the picker: the callback list and the arguments. -/
inductive Notification
  | onPick (id : ObjectID) (action : ActionType)
  | onHover (id : ObjectID)
  | onClick (id : ObjectID)
deriving DecidableEq, Repr

/-- For a pixel `value` read from the pick image: the four unsigned operands
`(unsigned)(value.r()*255.0)`, `(unsigned)(value.g()*255.0)`, `(unsigned)(value.b()*255.0)`,
`(unsigned)(value.a()*255.0)` of the shifts in `pick`. -/
structure Channels where
  r : Nat
  g : Nat
  b : Nat
  a : Nat
deriving DecidableEq, Repr

/-- Reduction of an unsigned 32-bit result. -/
def u32 (n : Nat) : Nat := n % 2 ^ 32

/-- The expression `(ObjectID)((r << 24) + (g << 16) + (b << 8) + a)` of `pick`, every shift and
sum taken in unsigned 32-bit arithmetic. -/
def decodeID (c : Channels) : ObjectID :=
  u32 (u32 (u32 (u32 (c.r <<< 24) + u32 (c.g <<< 16)) + u32 (c.b <<< 8)) + u32 c.a)

/-- Modelled from the spec: the big-endian split of an identifier into four bytes
(`r = id>>24`, `g = (id>>16)&255`, `b = (id>>8)&255`, `a = id&255`); the encoder is the picking
shader, which is not among the sources. -/
def encodeID (id : ObjectID) : Channels :=
  { r := id >>> 24, g := (id >>> 16) &&& 255, b := (id >>> 8) &&& 255, a := id &&& 255 }

/-- The channel-reconstruction formula `(r<<24)|(g<<16)|(b<<8)|a` as the spec words it. -/
def specDecode (c : Channels) : ObjectID :=
  (c.r <<< 24) ||| (c.g <<< 16) ||| (c.b <<< 8) ||| c.a

/-- The pick image `_pickImage`: its dimensions `s()` and `t()` and, for each pixel, the
channel operands that `pick` obtains from it. -/
structure Image where
  s : Int
  t : Int
  channels : Int → Int → Channels

/-- The viewport rectangle of the view's camera; `osg::Viewport` holds `double` values. -/
structure Viewport where
  x : ℚ
  y : ℚ
  width : ℚ
  height : ℚ

/-- The statement `float u = (x - vp->x()) / vp->width();` of `pick` (and the one for `v`): the
`float` event coordinate `p` is promoted to `double`, the difference and the quotient are
`double` operations, and the result is narrowed to `float`. -/
def viewportFraction (p origin extent : ℚ) : ℚ :=
  toFloat (toDouble (toDouble (p - origin) / extent))

/-- The local `hit` of `pick` together with what the call has done so far: the notifications
fired, in order, and the pixels read from the image, in order. -/
structure PickState where
  hit : Bool
  fired : List Notification
  reads : List (Int × Int)
deriving DecidableEq, Repr

/-- The deprecated block: `onHover.fire(id)` for a hover, `onClick.fire(id)` otherwise. -/
def backwardsCompat (id : ObjectID) (action : ActionType) : Notification :=
  if action = ActionType.ACTION_HOVER then Notification.onHover id else Notification.onClick id

/-- The body of the `while` loop of `pick`. -/
def pickBody (img : Image) (action : ActionType) (iter : SpiralIterator) (st : PickState) :
    PickState :=
  let st1 := { st with reads := st.reads ++ [(iter.s, iter.t)] }
  let id := decodeID (img.channels iter.s iter.t)
  if id > 0 then
    { st1 with
      fired := st1.fired ++ [Notification.onPick id action, backwardsCompat id action],
      hit := true }
  else st1

/-- The loop `while (iter.next() && (hit == false)) ...` of `pick`; the first argument bounds
the inner loop of every `next()`, the second the number of evaluations of the condition. -/
def pickLoop (img : Image) (action : ActionType) (fuel : Nat) :
    Nat → SpiralIterator → PickState → Option PickState
  | 0, _, _ => none
  | k + 1, iter, st =>
    match iter.next fuel with
    | none => none
    | some (more, iter1) =>
      if more && (st.hit == false) then
        pickLoop img action fuel k iter1 (pickBody img action iter1 st)
      else some st

/-- The part of `pick` after the construction of the iterator: the loop and the dispatch of a
miss. -/
def pickFrom (img : Image) (action : ActionType) (fuel : Nat) (iter : SpiralIterator) :
    Option PickState :=
  match pickLoop img action fuel fuel iter { hit := false, fired := [], reads := [] } with
  | none => none
  | some st =>
    if !st.hit then
      some { st with
        fired := st.fired ++ [Notification.onPick OSGEARTH_OBJECTID_EMPTY action,
          backwardsCompat OSGEARTH_OBJECTID_EMPTY action] }
    else some st

/-- The method `ObjectIDPicker::pick(view, x, y, action)`.  `img` is the member `_pickImage`,
`buffer` the member `_buffer`, `numSlaves` is `view->getNumSlaves()` and `vp` the viewport of
the view's camera.  The soft assertion returns without firing when the view has slaves. -/
def pick (img : Image) (buffer : Int) (numSlaves : Nat) (vp : Viewport) (x y : ℚ)
    (action : ActionType) (fuel : Nat) : Option PickState :=
  if numSlaves ≠ 0 then some { hit := false, fired := [], reads := [] }
  else
    let u := viewportFraction x vp.x vp.width
    let v := viewportFraction y vp.y vp.height
    pickFrom img action fuel (SpiralIterator.new img.s img.t (max buffer 1) u v)

/-! ## ObjectIDPicker::setGraph -/

/-- The identity of an `osg::Node`. -/
abbrev Node := Nat

/-- The offscreen camera `_rtt`, an `osg::Group`: its child list. -/
structure Camera where
  children : List Node
deriving DecidableEq, Repr

/-- The call `osg::Group::getNumChildren()`. -/
def Camera.getNumChildren (c : Camera) : Nat := c.children.length

/-- The call `osg::Group::removeChildren(pos, numChildrenToRemove)`. -/
def Camera.removeChildren (c : Camera) (pos num : Nat) : Camera :=
  { children := c.children.take pos ++ c.children.drop (pos + num) }

/-- The call `osg::Group::addChild(child)` with a non-null child. -/
def Camera.addChild (c : Camera) (child : Node) : Camera :=
  { children := c.children ++ [child] }

/-- The members of `ObjectIDPicker` that `setGraph` touches; `none` is a null pointer. -/
structure ObjectIDPicker where
  _graph : Option Node
  _rtt : Option Camera
deriving DecidableEq, Repr

/-- The method `ObjectIDPicker::setGraph(value)`.  The result `none` is the dereference of a
null `_rtt`. -/
def ObjectIDPicker.setGraph (p : ObjectIDPicker) (value : Option Node) :
    Option ObjectIDPicker :=
  let p1 := { p with _graph := value }
  let p2 :=
    match p1._rtt with
    | some c => { p1 with _rtt := some (c.removeChildren 0 c.getNumChildren) }
    | none => p1
  match value with
  | some child =>
    match p2._rtt with
    | some c => some { p2 with _rtt := some (c.addChild child) }
    | none => none
  | none => some p2

/-! ## Auxiliary definitions: the track of the spiral -/

namespace SpiralIterator

/-- The spiral cursor `(_ring, _leg, _x, _y)` is on its track: on leg 0 it moves right along the
row `-(ring-1)`, on leg 1 up along the column `ring`, on leg 2 left along the row `ring`, on
leg 3 down along the column `-ring`. -/
def OnTrack (it : SpiralIterator) : Prop :=
  1 ≤ it._ring ∧
  ((it._leg = 0 ∧ it._y = -((it._ring : Int) - 1) ∧ -((it._ring : Int) - 1) ≤ it._x ∧
      it._x < it._ring) ∨
   (it._leg = 1 ∧ it._x = it._ring ∧ -((it._ring : Int) - 1) ≤ it._y ∧ it._y < it._ring) ∨
   (it._leg = 2 ∧ it._y = it._ring ∧ -(it._ring : Int) < it._x ∧ it._x ≤ it._ring) ∨
   (it._leg = 3 ∧ it._x = -(it._ring : Int) ∧ -(it._ring : Int) < it._y ∧ it._y ≤ it._ring))

/-- The number of steps of the spiral between its start and the cursor. -/
def rank (it : SpiralIterator) : Int :=
  2 * ((it._ring : Int) - 1) * (2 * (it._ring : Int) - 1) +
    (match it._leg with
     | 0 => it._x + ((it._ring : Int) - 1)
     | 1 => (2 * (it._ring : Int) - 1) + (it._y + ((it._ring : Int) - 1))
     | 2 => (4 * (it._ring : Int) - 2) + ((it._ring : Int) - it._x)
     | _ => (6 * (it._ring : Int) - 2) + ((it._ring : Int) - it._y))

/-- The iterator after `n` executions of the `switch` statement. -/
def walk : Nat → SpiralIterator → SpiralIterator
  | 0, it => it
  | n + 1, it => (walk n it).spiralStep

/-- The number of spiral positions whose ring index is at most `m`. -/
def spiralLen (m : Nat) : Nat := 2 * m * (2 * m + 1)

/-- The first call of `next()` has returned the start pixel and the cursor is at the start of
the spiral. -/
def Started (it : SpiralIterator) : Prop := it.OnTrack ∧ it.rank = 0 ∧ it._count ≠ 0

/-- The spiral positions `n+1, ..., n+d` that lie inside the grid, as iterator states. -/
def visible (it : SpiralIterator) (n d : Nat) : List SpiralIterator :=
  ((List.range' (n + 1) d).filter (fun i => decide (¬ (walk i it).outside))).map
    (fun i => walk i it)

/-- A number of loop iterations that suffices for an iterator whose ring bound is `m`. -/
def spiralFuel (m : Nat) : Nat := spiralLen m + 2

/-- The test of the first call of `next()`: the start pixel is outside the grid. -/
def startOutside (it : SpiralIterator) : Prop :=
  it._offsetX < 0 ∨ it._offsetX ≥ it._w ∨ it._offsetY < 0 ∨ it._offsetY ≥ it._h

instance decidableStartOutside (it : SpiralIterator) : Decidable it.startOutside := by
  unfold startOutside; infer_instance

/-- The iterator after the first call of `next()` has returned `true`. -/
def started (it : SpiralIterator) : SpiralIterator := { it with _count := it._count + 1 }

/-- The iterator states at which the calls of `next()` on a fresh iterator return `true`: the
start pixel and then the positions of the spiral within the ring bound that lie inside the
grid. -/
def track (it : SpiralIterator) : List SpiralIterator :=
  if it.startOutside then []
  else it.started :: visible it.started 0 (spiralLen it._maxRing - 1)

/-- A freshly constructed iterator: the cursor at the start of the spiral, no call made. -/
def Fresh (it : SpiralIterator) : Prop :=
  it._ring = 1 ∧ it._leg = 0 ∧ it._x = 0 ∧ it._y = 0 ∧ it._count = 0

/-- The spiral positions of the states of `track`. -/
def trackIdx (it : SpiralIterator) : List Nat :=
  if it.startOutside then []
  else 0 :: (List.range' 1 (spiralLen it._maxRing - 1)).filter
    (fun i => decide (¬ (walk i it.started).outside))

end SpiralIterator

/-- The pick loop over the states at which `next()` returned `true`: the body runs while no
hit was made. -/
def scan (img : Image) (action : ActionType) : List SpiralIterator → PickState → PickState
  | [], st => st
  | it1 :: rest, st =>
    if st.hit = false then scan img action rest (pickBody img action it1 st) else st

/-- The coordinates of a list up to and including the first one whose pixel decodes to a
nonzero identifier; the whole list when there is none. -/
def readUntilHit (img : Image) : List (Int × Int) → List (Int × Int)
  | [] => []
  | c :: rest =>
    if decodeID (img.channels c.1 c.2) > 0 then [c] else c :: readUntilHit img rest

/-- The pixel lies inside a grid of width `w` and height `h`. -/
def inGrid (w h : Int) (c : Int × Int) : Bool :=
  decide (0 ≤ c.1 ∧ c.1 < w ∧ 0 ≤ c.2 ∧ c.2 < h)

/-- The first nonzero identifier of a list, 0 when there is none. -/
def firstNonzero : List ObjectID → ObjectID
  | [] => 0
  | id :: rest => if id > 0 then id else firstNonzero rest

/-- The notification is one of `onPick`. -/
def isOnPick : Notification → Bool
  | Notification.onPick _ _ => true
  | _ => false

/-! ## Lemmas on the spiral -/

namespace SpiralIterator

theorem spiralStep_fixed (it : SpiralIterator) :
    it.spiralStep._maxRing = it._maxRing ∧ it.spiralStep._w = it._w ∧
    it.spiralStep._h = it._h ∧ it.spiralStep._offsetX = it._offsetX ∧
    it.spiralStep._offsetY = it._offsetY ∧ it.spiralStep._count = it._count := by
  unfold spiralStep
  split <;> simp only [apply_ite] <;> simp

theorem onTrack_spiralStep (it : SpiralIterator) (h : it.OnTrack) : it.spiralStep.OnTrack := by
  obtain ⟨r, m, l, x, y, w, hh, ox, oy, c⟩ := it
  obtain ⟨h1, h | h | h | h⟩ := h <;> simp only at h h1 <;> obtain ⟨rfl, h2, h3, h4⟩ := h <;>
    simp only [spiralStep, OnTrack] <;> split_ifs <;> simp <;> omega

theorem rank_spiralStep (it : SpiralIterator) (h : it.OnTrack) :
    it.spiralStep.rank = it.rank + 1 := by
  obtain ⟨r, m, l, x, y, w, hh, ox, oy, c⟩ := it
  obtain ⟨h1, h | h | h | h⟩ := h <;> simp only at h h1 <;> obtain ⟨rfl, h2, h3, h4⟩ := h <;>
    simp only [spiralStep, rank] <;> split_ifs <;> simp <;> (try omega)
  have hy : y = 1 - (r : Int) := by omega
  subst hy h2
  ring

theorem walk_fixed (it : SpiralIterator) (n : Nat) :
    (walk n it)._maxRing = it._maxRing ∧ (walk n it)._w = it._w ∧
    (walk n it)._h = it._h ∧ (walk n it)._offsetX = it._offsetX ∧
    (walk n it)._offsetY = it._offsetY ∧ (walk n it)._count = it._count := by
  induction n with
  | zero => simp [walk]
  | succ n ih =>
    have h := spiralStep_fixed (walk n it)
    simp only [walk]
    refine ⟨h.1.trans ih.1, h.2.1.trans ih.2.1, h.2.2.1.trans ih.2.2.1,
      h.2.2.2.1.trans ih.2.2.2.1, h.2.2.2.2.1.trans ih.2.2.2.2.1,
      h.2.2.2.2.2.trans ih.2.2.2.2.2⟩

theorem walk_onTrack (it : SpiralIterator) (h : it.OnTrack) (n : Nat) : (walk n it).OnTrack := by
  induction n with
  | zero => exact h
  | succ n ih => exact onTrack_spiralStep _ ih

theorem walk_rank (it : SpiralIterator) (h : it.OnTrack) (n : Nat) :
    (walk n it).rank = it.rank + n := by
  induction n with
  | zero => simp [walk]
  | succ n ih =>
    simp only [walk]
    rw [rank_spiralStep _ (walk_onTrack it h n), ih]
    push_cast
    ring

theorem rank_bounds (it : SpiralIterator) (h : it.OnTrack) :
    2 * ((it._ring : Int) - 1) * (2 * (it._ring : Int) - 1) ≤ it.rank ∧
    it.rank < 2 * (it._ring : Int) * (2 * (it._ring : Int) + 1) := by
  obtain ⟨r, m, l, x, y, w, hh, ox, oy, c⟩ := it
  obtain ⟨h1, h | h | h | h⟩ := h <;> simp only at h h1 <;> obtain ⟨rfl, h2, h3, h4⟩ := h <;>
    simp only [rank] <;> constructor <;> nlinarith

theorem ring_le_iff (it : SpiralIterator) (h : it.OnTrack) (m : Nat) :
    it._ring ≤ m ↔ it.rank < (spiralLen m : Int) := by
  have hb := rank_bounds it h
  have h1 : (1 : Int) ≤ it._ring := by exact_mod_cast h.1
  unfold spiralLen
  push_cast
  constructor
  · intro hle
    have hle' : (it._ring : Int) ≤ m := by exact_mod_cast hle
    nlinarith
  · intro hlt
    by_contra hcon
    have hgt : (m : Int) + 1 ≤ it._ring := by
      have : m + 1 ≤ it._ring := by omega
      exact_mod_cast this
    have hm : (0 : Int) ≤ m := Int.natCast_nonneg m
    nlinarith

/-- Two cursors on the track at the same pixel are on the same ring and leg. -/
theorem onTrack_congr (a b : SpiralIterator) (ha : a.OnTrack) (hb : b.OnTrack)
    (hx : a._x = b._x) (hy : a._y = b._y) : a._ring = b._ring ∧ a._leg = b._leg := by
  obtain ⟨r, m, l, x, y, w, hh, ox, oy, c⟩ := a
  obtain ⟨r', m', l', x', y', w', hh', ox', oy', c'⟩ := b
  simp only at hx hy
  subst hx hy
  obtain ⟨h1, h | h | h | h⟩ := ha <;> obtain ⟨h1', h' | h' | h' | h'⟩ := hb <;>
    simp only at h h1 h' h1' <;> obtain ⟨rfl, h2, h3, h4⟩ := h <;>
    obtain ⟨rfl, h2', h3', h4'⟩ := h' <;> simp <;> omega

theorem rank_congr (a b : SpiralIterator) (ha : a.OnTrack) (hb : b.OnTrack)
    (hx : a._x = b._x) (hy : a._y = b._y) : a.rank = b.rank := by
  obtain ⟨h1, h2⟩ := onTrack_congr a b ha hb hx hy
  simp only [rank, h1, h2, hx, hy]

theorem walk_ring_le (it : SpiralIterator) (hs : it.Started) (n : Nat) :
    (walk n it)._ring ≤ (walk n it)._maxRing ↔ n < spiralLen it._maxRing := by
  rw [(walk_fixed it n).1, ring_le_iff _ (walk_onTrack it hs.1 n), walk_rank it hs.1, hs.2.1]
  simp

theorem visible_zero (it : SpiralIterator) (n : Nat) : visible it n 0 = [] := rfl

theorem visible_succ (it : SpiralIterator) (n d : Nat) :
    visible it n (d + 1) =
      if (walk (n + 1) it).outside then visible it (n + 1) d
      else walk (n + 1) it :: visible it (n + 1) d := by
  unfold visible
  rw [List.range'_succ, List.filter_cons]
  by_cases h : (walk (n + 1) it).outside <;> simp [h]

theorem doWhile_succ (f : Nat) (it : SpiralIterator) :
    doWhile (f + 1) it =
      if it.spiralStep._ring ≤ it.spiralStep._maxRing ∧ it.spiralStep.outside then
        doWhile f it.spiralStep
      else some it.spiralStep := rfl

theorem doWhile_walk_succ (f n : Nat) (it : SpiralIterator) :
    doWhile (f + 1) (walk n it) =
      if (walk (n + 1) it)._ring ≤ (walk (n + 1) it)._maxRing ∧ (walk (n + 1) it).outside then
        doWhile f (walk (n + 1) it)
      else some (walk (n + 1) it) := rfl

theorem next_of_count (f : Nat) (it : SpiralIterator) (h : it._count ≠ 0) :
    it.next f = (doWhile f it).map (fun it1 => (decide (it1._ring ≤ it1._maxRing), it1)) := by
  unfold next
  rw [if_neg h]
  cases doWhile f it <;> rfl

theorem calls_succ (f k : Nat) (it : SpiralIterator) :
    calls f (k + 1) it =
      (it.next f).bind (fun p => (calls f k p.2).map (fun rest => (p.1, p.2) :: rest)) := by
  conv_lhs => unfold calls
  cases it.next f with
  | none => rfl
  | some p =>
    obtain ⟨b, it1⟩ := p
    simp only [Option.bind]
    cases calls f k it1 <;> rfl

theorem doWhile_walk (it : SpiralIterator) (hs : it.Started) :
    ∀ d n, spiralLen it._maxRing - (n + 1) = d →
      ∃ r, ∀ f, d + 1 ≤ f → doWhile f (walk n it) = some r := by
  intro d
  induction d with
  | zero =>
    intro n hn
    refine ⟨walk (n + 1) it, ?_⟩
    intro f hf
    obtain ⟨f', rfl⟩ : ∃ f', f = f' + 1 := ⟨f - 1, by omega⟩
    have hP : ¬ ((walk (n + 1) it)._ring ≤ (walk (n + 1) it)._maxRing) := by
      rw [walk_ring_le it hs]; omega
    rw [doWhile_walk_succ, if_neg (fun h => hP h.1)]
  | succ d ih =>
    intro n hn
    by_cases hC : (walk (n + 1) it)._ring ≤ (walk (n + 1) it)._maxRing ∧ (walk (n + 1) it).outside
    · obtain ⟨r, hr⟩ := ih (n + 1) (by omega)
      refine ⟨r, ?_⟩
      intro f hf
      obtain ⟨f', rfl⟩ : ∃ f', f = f' + 1 := ⟨f - 1, by omega⟩
      rw [doWhile_walk_succ, if_pos hC]
      exact hr f' (by omega)
    · refine ⟨walk (n + 1) it, ?_⟩
      intro f hf
      obtain ⟨f', rfl⟩ : ∃ f', f = f' + 1 := ⟨f - 1, by omega⟩
      rw [doWhile_walk_succ, if_neg hC]

/-- Once the ring bound is exceeded every call of `next()` returns `false`. -/
theorem calls_exhausted (it : SpiralIterator) (hs : it.Started) (f : Nat) (hf : 1 ≤ f) :
    ∀ k n, spiralLen it._maxRing ≤ n + 1 →
      ∃ F, calls f k (walk n it) = some F ∧ ∀ e ∈ F, e.1 = false := by
  intro k
  induction k with
  | zero => intro n _; exact ⟨[], rfl, by simp⟩
  | succ k ih =>
    intro n hn
    obtain ⟨f', rfl⟩ : ∃ f', f = f' + 1 := ⟨f - 1, by omega⟩
    have hP : ¬ ((walk (n + 1) it)._ring ≤ (walk (n + 1) it)._maxRing) := by
      rw [walk_ring_le it hs]; omega
    obtain ⟨F, hF, hall⟩ := ih (n + 1) (by omega)
    have hc : (walk n it)._count ≠ 0 := by rw [(walk_fixed it n).2.2.2.2.2]; exact hs.2.2
    have hnext : (walk n it).next (f' + 1) = some (false, walk (n + 1) it) := by
      rw [next_of_count _ _ hc, doWhile_walk_succ, if_neg (fun h => hP h.1)]
      simp only [Option.map]
      rw [decide_eq_false hP]
    refine ⟨(false, walk (n + 1) it) :: F, ?_, ?_⟩
    · rw [calls_succ, hnext]
      simp [Option.bind, hF]
    · intro e he
      rcases List.mem_cons.1 he with rfl | he
      · rfl
      · exact hall e he

/-- The outcomes of `k` calls of `next()` made at spiral position `n`: the visible positions that
remain within the ring bound, then calls that return `false`. -/
theorem calls_walk (it : SpiralIterator) (hs : it.Started) :
    ∀ d n k f, spiralLen it._maxRing - (n + 1) = d → d + 1 ≤ f →
      ∃ F, calls f k (walk n it) =
          some ((((visible it n d).take k).map (fun st => (true, st))) ++ F) ∧
        ∀ e ∈ F, e.1 = false := by
  intro d
  induction d with
  | zero =>
    intro n k f hn hf
    obtain ⟨F, hF, hall⟩ := calls_exhausted it hs f (by omega) k n (by omega)
    exact ⟨F, by simpa [visible_zero] using hF, hall⟩
  | succ d ih =>
    intro n k f hn hf
    cases k with
    | zero => exact ⟨[], by simp [calls], by simp⟩
    | succ k =>
      obtain ⟨f', rfl⟩ : ∃ f', f = f' + 1 := ⟨f - 1, by omega⟩
      have hP : (walk (n + 1) it)._ring ≤ (walk (n + 1) it)._maxRing := by
        rw [walk_ring_le it hs]; omega
      have hc : (walk n it)._count ≠ 0 := by rw [(walk_fixed it n).2.2.2.2.2]; exact hs.2.2
      have hc1 : (walk (n + 1) it)._count ≠ 0 := by
        rw [(walk_fixed it (n + 1)).2.2.2.2.2]; exact hs.2.2
      by_cases hO : (walk (n + 1) it).outside
      · -- the position is skipped: this call behaves as the same call made one step later
        obtain ⟨r, hr⟩ := doWhile_walk it hs d (n + 1) (by omega)
        have hnext : (walk n it).next (f' + 1) = (walk (n + 1) it).next (f' + 1) := by
          rw [next_of_count _ _ hc, next_of_count _ _ hc1, doWhile_walk_succ, if_pos ⟨hP, hO⟩]
          rw [hr f' (by omega), hr (f' + 1) (by omega)]
        obtain ⟨F, hF, hall⟩ := ih (n + 1) (k + 1) (f' + 1) (by omega) (by omega)
        refine ⟨F, ?_, hall⟩
        rw [calls_succ, hnext, ← calls_succ, hF, visible_succ, if_pos hO]
      · have hnext : (walk n it).next (f' + 1) = some (true, walk (n + 1) it) := by
          rw [next_of_count _ _ hc, doWhile_walk_succ, if_neg (fun h => hO h.2)]
          simp only [Option.map]
          rw [decide_eq_true hP]
        obtain ⟨F, hF, hall⟩ := ih (n + 1) k (f' + 1) (by omega) (by omega)
        refine ⟨F, ?_, hall⟩
        rw [calls_succ, hnext, visible_succ, if_neg hO]
        simp [Option.bind, hF]

theorem fresh_new (w h maxDist : Int) (u v : ℚ) : (new w h maxDist u v).Fresh :=
  ⟨rfl, rfl, rfl, rfl, rfl⟩

theorem started_of_fresh (it : SpiralIterator) (h : it.Fresh) : it.started.Started := by
  obtain ⟨r, m, l, x, y, w, hh, ox, oy, c⟩ := it
  obtain ⟨h1, h2, h3, h4, h5⟩ := h
  simp only at h1 h2 h3 h4 h5
  subst h1 h2 h3 h4 h5
  refine ⟨⟨le_refl _, Or.inl ?_⟩, ?_, ?_⟩ <;> simp [started, rank]

theorem calls_fresh_outside (it : SpiralIterator) (h : it.Fresh) (ho : it.startOutside)
    (f k : Nat) : calls f k it = some (List.replicate k (false, it)) := by
  have hnext : it.next f = some (false, it) := by
    unfold next
    rw [if_pos h.2.2.2.2]
    exact if_pos ho
  induction k with
  | zero => rfl
  | succ k ih =>
    rw [calls_succ, hnext]
    simp [Option.bind, ih, List.replicate_succ]

/-- The outcomes of `k` calls of `next()` on a fresh iterator: the first `k` states of the track,
then calls that return `false`. -/
theorem calls_fresh (it : SpiralIterator) (h : it.Fresh) (f k : Nat)
    (hf : spiralFuel it._maxRing ≤ f) :
    ∃ F, calls f k it = some ((((track it).take k).map (fun st => (true, st))) ++ F) ∧
      ∀ e ∈ F, e.1 = false := by
  by_cases ho : it.startOutside
  · refine ⟨List.replicate k (false, it), ?_, ?_⟩
    · rw [calls_fresh_outside it h ho]
      simp [track, ho]
    · intro e he
      rw [(List.mem_replicate.1 he).2]
  · cases k with
    | zero => exact ⟨[], by simp [calls], by simp⟩
    | succ k =>
      have hnext : it.next f = some (true, it.started) := by
        unfold next
        rw [if_pos h.2.2.2.2]
        exact if_neg ho
      have hs := started_of_fresh it h
      obtain ⟨F, hF, hall⟩ := calls_walk it.started hs (spiralLen it._maxRing - 1) 0 k f
        (by show spiralLen it._maxRing - (0 + 1) = _; rfl)
        (by unfold spiralFuel at hf; omega)
      refine ⟨F, ?_, hall⟩
      have hF' : calls f k it.started = _ := hF
      rw [calls_succ, hnext]
      simp [Option.bind, hF', track, ho]

theorem successes_append_false (A : List SpiralIterator) (F : List (Bool × SpiralIterator))
    (hF : ∀ e ∈ F, e.1 = false) :
    successes (A.map (fun st => (true, st)) ++ F) = A := by
  unfold successes
  rw [List.filter_append]
  have h1 : F.filter (fun e => e.1) = [] := by
    rw [List.filter_eq_nil_iff]
    intro e he
    simp [hF e he]
  have h2 : (A.map (fun st => ((true, st) : Bool × SpiralIterator))).filter (fun e => e.1) =
      A.map (fun st => (true, st)) := by
    rw [List.filter_eq_self]
    intro e he
    obtain ⟨st, _, rfl⟩ := List.mem_map.1 he
    rfl
  rw [h1, h2, List.append_nil, List.map_map]
  simp [Function.comp_def]

theorem beforeFirstFalse_append_false (A : List SpiralIterator)
    (F : List (Bool × SpiralIterator)) (hF : ∀ e ∈ F, e.1 = false) :
    beforeFirstFalse (A.map (fun st => (true, st)) ++ F) = A.map (fun st => (true, st)) := by
  unfold beforeFirstFalse
  induction A with
  | nil =>
    cases F with
    | nil => rfl
    | cons e F =>
      have := hF e (List.mem_cons_self _ _)
      simp [List.takeWhile, this]
  | cons a A ih => simp [List.takeWhile_cons, ih]

theorem track_eq_map (it : SpiralIterator) :
    track it = (trackIdx it).map (fun n => walk n it.started) := by
  unfold track trackIdx visible
  by_cases ho : it.startOutside
  · simp [ho]
  · simp only [if_neg ho, List.map_cons]
    rfl

theorem spiralStep_cursor_congr (a b : SpiralIterator)
    (h : a._ring = b._ring ∧ a._leg = b._leg ∧ a._x = b._x ∧ a._y = b._y) :
    a.spiralStep._ring = b.spiralStep._ring ∧ a.spiralStep._leg = b.spiralStep._leg ∧
    a.spiralStep._x = b.spiralStep._x ∧ a.spiralStep._y = b.spiralStep._y := by
  obtain ⟨r, m, l, x, y, w, hh, ox, oy, c⟩ := a
  obtain ⟨r', m', l', x', y', w', hh', ox', oy', c'⟩ := b
  obtain ⟨h1, h2, h3, h4⟩ := h
  simp only at h1 h2 h3 h4
  subst h1 h2 h3 h4
  simp only [spiralStep]
  split <;> simp only [apply_ite] <;> simp

theorem walk_cursor_congr (a b : SpiralIterator)
    (h : a._ring = b._ring ∧ a._leg = b._leg ∧ a._x = b._x ∧ a._y = b._y) (n : Nat) :
    (walk n a)._ring = (walk n b)._ring ∧ (walk n a)._leg = (walk n b)._leg ∧
    (walk n a)._x = (walk n b)._x ∧ (walk n a)._y = (walk n b)._y := by
  induction n with
  | zero => exact h
  | succ n ih => exact spiralStep_cursor_congr _ _ ih

/-- The cursor on the track stays in the rectangle of its ring. -/
theorem onTrack_box (it : SpiralIterator) (h : it.OnTrack) :
    -(it._ring : Int) ≤ it._x ∧ it._x ≤ it._ring ∧
    -((it._ring : Int) - 1) ≤ it._y ∧ it._y ≤ it._ring ∧
    (it._y = -((it._ring : Int) - 1) ∨ it._x = it._ring ∨ it._y = it._ring ∨
      it._x = -(it._ring : Int)) := by
  obtain ⟨h1, h | h | h | h⟩ := h <;> obtain ⟨_, h2, h3, h4⟩ := h <;>
    refine ⟨?_, ?_, ?_, ?_, ?_⟩ <;> omega

/-- Distinct spiral positions are distinct pixels. -/
theorem walk_pixel_injective (it : SpiralIterator) (hs : it.Started) (n m : Nat)
    (hx : (walk n it)._x = (walk m it)._x) (hy : (walk n it)._y = (walk m it)._y) : n = m := by
  have h := rank_congr _ _ (walk_onTrack it hs.1 n) (walk_onTrack it hs.1 m) hx hy
  rw [walk_rank it hs.1, walk_rank it hs.1] at h
  omega

theorem toUnsigned_of_range (m : Int) (h0 : 0 ≤ m) (h1 : m < 2 ^ 32) :
    ((toUnsigned m : Nat) : Int) = m := by
  unfold toUnsigned
  rw [Int.emod_eq_of_lt h0 h1, Int.toNat_of_nonneg h0]

theorem mem_trackIdx (it : SpiralIterator) (n : Nat) :
    n ∈ trackIdx it ↔ ¬ it.startOutside ∧
      (n = 0 ∨ (1 ≤ n ∧ n < spiralLen it._maxRing ∧ ¬ (walk n it.started).outside)) := by
  unfold trackIdx
  by_cases ho : it.startOutside
  · simp [ho]
  · rw [if_neg ho, List.mem_cons, List.mem_filter, List.mem_range'_1, decide_eq_true_eq]
    constructor
    · rintro (h | ⟨⟨h1, h2⟩, h3⟩)
      · exact ⟨ho, Or.inl h⟩
      · exact ⟨ho, Or.inr ⟨h1, by omega, h3⟩⟩
    · rintro ⟨_, h | ⟨h1, h2, h3⟩⟩
      · exact Or.inl h
      · exact Or.inr ⟨⟨h1, by omega⟩, h3⟩

theorem trackIdx_nodup (it : SpiralIterator) : (trackIdx it).Nodup := by
  unfold trackIdx
  by_cases ho : it.startOutside
  · simp [ho]
  · simp only [if_neg ho, List.nodup_cons]
    refine ⟨?_, (List.nodup_range' 1 _).filter _⟩
    intro h
    have := (List.mem_filter.1 h).1
    simp at this

theorem trackIdx_length (it : SpiralIterator) :
    (trackIdx it).length ≤ 1 + (spiralLen it._maxRing - 1) := by
  unfold trackIdx
  by_cases ho : it.startOutside
  · simp [ho]
  · simp only [if_neg ho, List.length_cons]
    have := List.length_filter_le (fun i => decide (¬ (walk i it.started).outside))
      (List.range' 1 (spiralLen it._maxRing - 1))
    simp only [List.length_range'] at this
    omega

theorem track_length (it : SpiralIterator) :
    (track it).length ≤ 1 + (spiralLen it._maxRing - 1) := by
  rw [track_eq_map, List.length_map]
  exact trackIdx_length it

/-- What holds of every state of the track of a fresh iterator. -/
theorem track_state (it : SpiralIterator) (h : it.Fresh) (st : SpiralIterator)
    (hst : st ∈ track it) :
    st.OnTrack ∧ st._offsetX = it._offsetX ∧ st._offsetY = it._offsetY ∧ st._w = it._w ∧
      st._h = it._h ∧ ¬ st.outside ∧ 1 ≤ st._ring ∧ st._ring ≤ max it._maxRing 1 := by
  rw [track_eq_map] at hst
  obtain ⟨n, hn, rfl⟩ := List.mem_map.1 hst
  have hs := started_of_fresh it h
  have hfix := walk_fixed it.started n
  have hon := walk_onTrack it.started hs.1 n
  obtain ⟨ho, hcase⟩ := (mem_trackIdx it n).1 hn
  refine ⟨hon, hfix.2.2.2.1, hfix.2.2.2.2.1, hfix.2.1, hfix.2.2.1, ?_, hon.1, ?_⟩
  · rcases hcase with rfl | ⟨_, _, h3⟩
    · obtain ⟨h1, h2, h3, h4, h5⟩ := h
      intro hout
      apply ho
      simpa [walk, outside, started, startOutside, h3, h4] using hout
    · exact h3
  · rcases hcase with rfl | ⟨_, h2, _⟩
    · have : (walk 0 it.started)._ring = 1 := h.1
      rw [this]
      exact le_max_right _ _
    · have := (walk_ring_le it.started hs n).2 h2
      rw [hfix.1] at this
      exact le_trans this (le_max_left _ _)

/-- The coordinates along the track are pairwise distinct. -/
theorem track_coords_nodup (it : SpiralIterator) (h : it.Fresh) : (coords (track it)).Nodup := by
  have hs := started_of_fresh it h
  unfold coords
  rw [track_eq_map, List.map_map]
  refine (trackIdx_nodup it).map ?_
  intro n m hnm
  simp only [Function.comp, s, t, Prod.mk.injEq] at hnm
  have hn := walk_fixed it.started n
  have hm := walk_fixed it.started m
  rw [hn.2.2.2.1, hm.2.2.2.1, hn.2.2.2.2.1, hm.2.2.2.2.1] at hnm
  exact walk_pixel_injective it.started hs n m (by omega) (by omega)

theorem spiralLen_mono (a b : Nat) (h : a ≤ b) : spiralLen a ≤ spiralLen b := by
  unfold spiralLen
  exact Nat.mul_le_mul (Nat.mul_le_mul_left 2 h) (by omega)

theorem castInt_of_nonneg (q : ℚ) (h : 0 ≤ q) : castInt q = ⌊q⌋ := by
  unfold castInt
  rw [Rat.floor_def, Int.tdiv_eq_ediv (Rat.num_nonneg.2 h) (Int.natCast_nonneg _)]

end SpiralIterator

/-! ## Lemmas on floating-point rounding -/

/-- A rational within one half of an integer rounds to it. -/
theorem roundHalfEven_eq (r : ℚ) (n : Int) (h : |r - n| < 1 / 2) : roundHalfEven r = n := by
  rw [abs_lt] at h
  unfold roundHalfEven
  by_cases hle : (n : ℚ) ≤ r
  · have hf : ⌊r⌋ = n := by
      rw [Int.floor_eq_iff]
      constructor
      · exact hle
      · linarith [h.2]
    rw [hf, if_pos (by linarith [h.2])]
  · push_neg at hle
    have hf : ⌊r⌋ = n - 1 := by
      rw [Int.floor_eq_iff]
      push_cast
      constructor <;> linarith [h.1]
    rw [hf]
    push_cast
    rw [if_neg (by linarith [h.1]), if_pos (by linarith [h.1])]
    ring

/-- The rounding of `q` when its binary exponent `e` and the nearest multiple `n` of the unit in
the last place are known. -/
theorem roundBinary_eq (p : Nat) (emin : Int) (q : ℚ) (e E n : Int)
    (h1 : (2 : ℚ) ^ e ≤ |q|) (h2 : |q| < (2 : ℚ) ^ (e + 1))
    (hE : max (e - ((p : Int) - 1)) emin = E) (hn : |q / (2 : ℚ) ^ E - n| < 1 / 2) :
    roundBinary p emin q = n * (2 : ℚ) ^ E := by
  have hpos : 0 < |q| := lt_of_lt_of_le (zpow_pos (by norm_num) e) h1
  have hlog : Int.log 2 |q| = e := by
    apply le_antisymm
    · have := (Int.lt_zpow_iff_log_lt (b := 2) (by norm_num) hpos).1 (by exact_mod_cast h2)
      omega
    · exact (Int.zpow_le_iff_le_log (b := 2) (by norm_num) hpos).1 (by exact_mod_cast h1)
  unfold roundBinary ulpExp
  rw [hlog, hE, roundHalfEven_eq _ n hn]

theorem roundBinary_zero (p : Nat) (emin : Int) : roundBinary p emin 0 = 0 := by
  unfold roundBinary roundHalfEven
  simp

/-- A value of the format rounds to itself. -/
theorem roundBinary_exact (p : Nat) (emin : Int) (q : ℚ) (e E n : Int)
    (h1 : (2 : ℚ) ^ e ≤ |q|) (h2 : |q| < (2 : ℚ) ^ (e + 1))
    (hE : max (e - ((p : Int) - 1)) emin = E) (hq : q = n * (2 : ℚ) ^ E) :
    roundBinary p emin q = q := by
  have hpos : (0 : ℚ) < (2 : ℚ) ^ E := zpow_pos (by norm_num) E
  rw [roundBinary_eq p emin q e E n h1 h2 hE, ← hq]
  rw [hq, mul_div_assoc, div_self (ne_of_gt hpos), mul_one, sub_self, abs_zero]
  norm_num

theorem toFloat_two : toFloat 2 = 2 :=
  roundBinary_exact 24 (-149) 2 1 (-22) 8388608
    (by norm_num [le_abs]) (by norm_num [abs_lt]) (by decide) (by norm_num)

theorem toFloat_three : toFloat 3 = 3 :=
  roundBinary_exact 24 (-149) 3 1 (-22) 12582912
    (by norm_num [le_abs]) (by norm_num [abs_lt]) (by decide) (by norm_num)

theorem toFloat_four : toFloat 4 = 4 :=
  roundBinary_exact 24 (-149) 4 2 (-21) 8388608
    (by norm_num [le_abs]) (by norm_num [abs_lt]) (by decide) (by norm_num)

theorem toFloat_five : toFloat 5 = 5 :=
  roundBinary_exact 24 (-149) 5 2 (-21) 10485760
    (by norm_num [le_abs]) (by norm_num [abs_lt]) (by decide) (by norm_num)

theorem toFloat_ten : toFloat 10 = 10 :=
  roundBinary_exact 24 (-149) 10 3 (-20) 10485760
    (by norm_num [le_abs]) (by norm_num [abs_lt]) (by decide) (by norm_num)

theorem toFloat_half : toFloat (1 / 2) = 1 / 2 :=
  roundBinary_exact 24 (-149) (1 / 2) (-1) (-24) 8388608
    (by norm_num [le_abs]) (by norm_num [abs_lt]) (by decide) (by norm_num)

theorem toFloat_neg_half : toFloat (-1 / 2) = -1 / 2 :=
  roundBinary_exact 24 (-149) (-1 / 2) (-1) (-24) (-8388608)
    (by norm_num [le_abs]) (by norm_num [abs_lt]) (by decide) (by norm_num)

theorem toFloat_three_halves : toFloat (3 / 2) = 3 / 2 :=
  roundBinary_exact 24 (-149) (3 / 2) 0 (-23) 12582912
    (by norm_num [le_abs]) (by norm_num [abs_lt]) (by decide) (by norm_num)

theorem toFloat_five_halves : toFloat (5 / 2) = 5 / 2 :=
  roundBinary_exact 24 (-149) (5 / 2) 1 (-22) 10485760
    (by norm_num [le_abs]) (by norm_num [abs_lt]) (by decide) (by norm_num)

theorem toDouble_three_halves : toDouble (3 / 2) = 3 / 2 :=
  roundBinary_exact 53 (-1074) (3 / 2) 0 (-52) 6755399441055744
    (by norm_num [le_abs]) (by norm_num [abs_lt]) (by decide) (by norm_num)

theorem toDouble_half : toDouble (1 / 2) = 1 / 2 :=
  roundBinary_exact 53 (-1074) (1 / 2) (-1) (-53) 4503599627370496
    (by norm_num [le_abs]) (by norm_num [abs_lt]) (by decide) (by norm_num)

theorem toFloat_seven_tenths : toFloat (11744051 / 16777216) = 11744051 / 16777216 :=
  roundBinary_exact 24 (-149) (11744051 / 16777216) (-1) (-24) 11744051
    (by norm_num [le_abs]) (by norm_num [abs_lt]) (by decide) (by norm_num)

theorem toFloat_of_seven_tenths : toFloat (7 / 10) = 11744051 / 16777216 := by
  have := roundBinary_eq 24 (-149) (7 / 10) (-1) (-24) 11744051
    (by norm_num [le_abs]) (by norm_num [abs_lt]) (by decide) (by norm_num [abs_lt])
  unfold toFloat
  rw [this]; norm_num

theorem toFloat_seven_tenths_times_ten : toFloat (11744051 / 16777216 * 10) = 7 := by
  have := roundBinary_eq 24 (-149) (11744051 / 16777216 * 10) 2 (-21) 14680064
    (by norm_num [le_abs]) (by norm_num [abs_lt]) (by decide) (by norm_num [abs_lt])
  unfold toFloat
  rw [this]; norm_num

/-! ## Lemmas on the pick loop -/

theorem pickLoop_succ (img : Image) (action : ActionType) (f k : Nat) (it : SpiralIterator)
    (st : PickState) :
    pickLoop img action f (k + 1) it st =
      (it.next f).bind (fun p =>
        if p.1 && (st.hit == false) then pickLoop img action f k p.2 (pickBody img action p.2 st)
        else some st) := by
  conv_lhs => unfold pickLoop
  cases it.next f with
  | none => rfl
  | some p => rfl

theorem scan_of_hit (img : Image) (action : ActionType) (L : List SpiralIterator)
    (st : PickState) (h : st.hit = true) : scan img action L st = st := by
  cases L with
  | nil => rfl
  | cons a L => simp [scan, h]

/-- The pick loop computes the scan of the states produced before the first `false`. -/
theorem pickLoop_calls (img : Image) (action : ActionType) (f : Nat) :
    ∀ (k : Nat) (it : SpiralIterator) (l : List (Bool × SpiralIterator)) (st : PickState),
      SpiralIterator.calls f k it = some l → (∃ e ∈ l, e.1 = false) →
      pickLoop img action f k it st =
        some (scan img action (successes (beforeFirstFalse l)) st) := by
  intro k
  induction k with
  | zero =>
    intro it l st hl hex
    simp only [SpiralIterator.calls, Option.some.injEq] at hl
    subst hl
    obtain ⟨e, he, _⟩ := hex
    simp at he
  | succ k ih =>
    intro it l st hl hex
    rw [SpiralIterator.calls_succ] at hl
    rw [pickLoop_succ]
    cases hnext : it.next f with
    | none => rw [hnext] at hl; simp [Option.bind] at hl
    | some p =>
      obtain ⟨b, it1⟩ := p
      rw [hnext] at hl
      simp only [Option.bind] at hl
      cases hrest : SpiralIterator.calls f k it1 with
      | none => rw [hrest] at hl; simp at hl
      | some rest =>
        rw [hrest] at hl
        simp only [Option.map, Option.some.injEq] at hl
        subst hl
        simp only [Option.bind]
        cases b with
        | false => simp [beforeFirstFalse, successes, scan]
        | true =>
          have hex' : ∃ e ∈ rest, e.1 = false := by
            obtain ⟨e, he, hfalse⟩ := hex
            rcases List.mem_cons.1 he with rfl | he
            · simp at hfalse
            · exact ⟨e, he, hfalse⟩
          have hsucc : successes (beforeFirstFalse ((true, it1) :: rest)) =
              it1 :: successes (beforeFirstFalse rest) := by
            simp [beforeFirstFalse, successes, List.takeWhile_cons]
          rw [hsucc]
          cases hhit : st.hit with
          | true => simp [scan, hhit]
          | false =>
            simp only [Bool.true_and, beq_self_eq_true, if_true, scan, hhit]
            exact ih it1 rest _ hrest hex'

theorem scan_fired (img : Image) (action : ActionType) :
    ∀ (L : List SpiralIterator) (st : PickState), st.hit = false →
      (scan img action L st).fired ++
          (if (scan img action L st).hit = false then
            [Notification.onPick OSGEARTH_OBJECTID_EMPTY action,
              backwardsCompat OSGEARTH_OBJECTID_EMPTY action]
           else []) =
        st.fired ++
          [Notification.onPick
              (firstNonzero (L.map (fun it1 => decodeID (img.channels it1.s it1.t)))) action,
            backwardsCompat
              (firstNonzero (L.map (fun it1 => decodeID (img.channels it1.s it1.t)))) action] := by
  intro L
  induction L with
  | nil =>
    intro st h
    simp [scan, h, firstNonzero, OSGEARTH_OBJECTID_EMPTY]
  | cons a L ih =>
    intro st h
    simp only [scan, h, if_true, List.map_cons, firstNonzero]
    by_cases hid : decodeID (img.channels a.s a.t) > 0
    · have hb : (pickBody img action a st).hit = true := by simp [pickBody, hid]
      rw [scan_of_hit img action L _ hb, hb]
      simp [pickBody, hid]
    · have hb : (pickBody img action a st).hit = false := by simp [pickBody, hid, h]
      have hf : (pickBody img action a st).fired = st.fired := by simp [pickBody, hid]
      rw [ih _ hb, hf, if_neg hid]

theorem scan_reads (img : Image) (action : ActionType) :
    ∀ (L : List SpiralIterator) (st : PickState),
      ∀ p ∈ (scan img action L st).reads, p ∈ st.reads ∨ p ∈ coords L := by
  intro L
  induction L with
  | nil => intro st p hp; exact Or.inl hp
  | cons a L ih =>
    intro st p hp
    by_cases h : st.hit = false
    · simp only [scan, h, if_true] at hp
      rcases ih _ p hp with h1 | h1
      · have hr : (pickBody img action a st).reads = st.reads ++ [(a.s, a.t)] := by
          unfold pickBody
          simp only []
          split_ifs <;> rfl
        rw [hr, List.mem_append, List.mem_singleton] at h1
        rcases h1 with h1 | h1
        · exact Or.inl h1
        · exact Or.inr (by simp [coords, h1])
      · exact Or.inr (by simp only [coords, List.map_cons, List.mem_cons]; exact Or.inr h1)
    · simp only [scan, h, if_false] at hp
      exact Or.inl hp

theorem scan_reads_eq (img : Image) (action : ActionType) :
    ∀ (L : List SpiralIterator) (st : PickState), st.hit = false →
      (scan img action L st).reads = st.reads ++ readUntilHit img (coords L) := by
  intro L
  induction L with
  | nil => intro st _; simp [scan, coords, readUntilHit]
  | cons a L ih =>
    intro st h
    simp only [scan, h, if_true, coords, List.map_cons, readUntilHit]
    by_cases hid : decodeID (img.channels a.s a.t) > 0
    · have hb : (pickBody img action a st).hit = true := by simp [pickBody, hid]
      rw [scan_of_hit img action L _ hb, if_pos hid]
      simp [pickBody, hid]
    · have hb : (pickBody img action a st).hit = false := by simp [pickBody, hid, h]
      have hr : (pickBody img action a st).reads = st.reads ++ [(a.s, a.t)] := by
        simp [pickBody, hid]
      rw [ih _ hb, hr, if_neg hid, List.append_assoc]
      rfl

theorem readUntilHit_subset (img : Image) :
    ∀ (cs : List (Int × Int)) (p : Int × Int), p ∈ readUntilHit img cs → p ∈ cs := by
  intro cs
  induction cs with
  | nil => intro p hp; simp [readUntilHit] at hp
  | cons c cs ih =>
    intro p hp
    simp only [readUntilHit] at hp
    split_ifs at hp with hid
    · rw [List.mem_singleton] at hp
      rw [hp]; exact List.mem_cons_self _ _
    · rcases List.mem_cons.1 hp with h1 | h1
      · rw [h1]; exact List.mem_cons_self _ _
      · exact List.mem_cons_of_mem _ (ih p h1)

theorem readUntilHit_zero_iff (img : Image) :
    ∀ (cs : List (Int × Int)),
      (∀ p ∈ readUntilHit img cs, decodeID (img.channels p.1 p.2) = 0) ↔
        ∀ c ∈ cs, decodeID (img.channels c.1 c.2) = 0 := by
  intro cs
  induction cs with
  | nil => simp [readUntilHit]
  | cons c cs ih =>
    simp only [readUntilHit]
    by_cases hid : decodeID (img.channels c.1 c.2) > 0
    · rw [if_pos hid]
      constructor
      · intro h
        exact absurd (h c (List.mem_singleton_self c)) (Nat.ne_of_gt hid)
      · intro h
        exact absurd (h c (List.mem_cons_self _ _)) (Nat.ne_of_gt hid)
    · rw [if_neg hid]
      simp only [List.forall_mem_cons]
      rw [ih]

theorem firstNonzero_eq_zero_iff :
    ∀ (ids : List ObjectID), firstNonzero ids = 0 ↔ ∀ id ∈ ids, id = 0 := by
  intro ids
  induction ids with
  | nil => simp [firstNonzero]
  | cons id ids ih =>
    simp only [firstNonzero, List.forall_mem_cons]
    by_cases hid : id > 0
    · rw [if_pos hid]
      constructor
      · intro h; exact absurd h (Nat.ne_of_gt hid)
      · intro h; exact absurd h.1 (Nat.ne_of_gt hid)
    · rw [if_neg hid, ih]
      constructor
      · intro h; exact ⟨Nat.eq_zero_of_not_pos hid, h⟩
      · intro h; exact h.2

theorem calls_length (f : Nat) : ∀ (k : Nat) (it : SpiralIterator)
    (l : List (Bool × SpiralIterator)), SpiralIterator.calls f k it = some l → l.length = k := by
  intro k
  induction k with
  | zero =>
    intro it l h
    simp only [SpiralIterator.calls, Option.some.injEq] at h
    subst h
    rfl
  | succ k ih =>
    intro it l h
    rw [SpiralIterator.calls_succ] at h
    cases hnext : it.next f with
    | none => rw [hnext] at h; simp [Option.bind] at h
    | some p =>
      rw [hnext] at h
      simp only [Option.bind] at h
      cases hrest : SpiralIterator.calls f k p.2 with
      | none => rw [hrest] at h; simp at h
      | some rest =>
        rw [hrest] at h
        simp only [Option.map, Option.some.injEq] at h
        subst h
        simp [ih _ _ hrest]

/-- The pick query on a fresh iterator: the notifications fired and the pixels read. -/
theorem pickFrom_fresh (img : Image) (action : ActionType) (it : SpiralIterator)
    (h : it.Fresh) (f : Nat) (hf : SpiralIterator.spiralFuel it._maxRing ≤ f) :
    ∃ l st, SpiralIterator.calls f f it = some l ∧ pickFrom img action f it = some st ∧
      st.fired =
        [Notification.onPick
            (firstNonzero ((coords (successes l)).map (fun c => decodeID (img.channels c.1 c.2))))
            action,
          backwardsCompat
            (firstNonzero ((coords (successes l)).map (fun c => decodeID (img.channels c.1 c.2))))
            action] ∧
      (∀ p ∈ st.reads, p ∈ coords (SpiralIterator.track it)) ∧
      (∃ e ∈ l, e.1 = false) ∧ successes (beforeFirstFalse l) = successes l ∧
      st.reads = readUntilHit img (coords (successes l)) ∧
      successes l = (SpiralIterator.track it).take f := by
  obtain ⟨F, hF, hall⟩ := SpiralIterator.calls_fresh it h f f hf
  have hlen := calls_length f f it _ hF
  have hFne : ∃ e ∈ ((SpiralIterator.track it).take f).map (fun st => (true, st)) ++ F,
      e.1 = false := by
    have h1 := SpiralIterator.track_length it
    have h2 : ((SpiralIterator.track it).take f).length ≤ (SpiralIterator.track it).length :=
      (List.take_sublist _ _).length_le
    rw [List.length_append, List.length_map] at hlen
    unfold SpiralIterator.spiralFuel at hf
    cases F with
    | nil => simp at hlen; omega
    | cons e F =>
      exact ⟨e, by simp, hall e (List.mem_cons_self _ _)⟩
  have hloop := pickLoop_calls img action f f it _ { hit := false, fired := [], reads := [] }
    hF hFne
  rw [SpiralIterator.beforeFirstFalse_append_false _ _ hall] at hloop
  have hs2 := SpiralIterator.successes_append_false ((SpiralIterator.track it).take f) []
    (by simp)
  rw [List.append_nil] at hs2
  rw [hs2] at hloop
  have hfired := scan_fired img action ((SpiralIterator.track it).take f)
    { hit := false, fired := [], reads := [] } rfl
  have hreads := scan_reads img action ((SpiralIterator.track it).take f)
    { hit := false, fired := [], reads := [] }
  refine ⟨_, (if (scan img action ((SpiralIterator.track it).take f)
        { hit := false, fired := [], reads := [] }).hit = false then
      { scan img action ((SpiralIterator.track it).take f)
          { hit := false, fired := [], reads := [] } with
        fired := (scan img action ((SpiralIterator.track it).take f)
          { hit := false, fired := [], reads := [] }).fired ++
            [Notification.onPick OSGEARTH_OBJECTID_EMPTY action,
              backwardsCompat OSGEARTH_OBJECTID_EMPTY action] }
      else scan img action ((SpiralIterator.track it).take f)
        { hit := false, fired := [], reads := [] }), hF, ?_, ?_, ?_, hFne, ?_, ?_,
    SpiralIterator.successes_append_false _ _ hall⟩
  · unfold pickFrom
    rw [hloop]
    simp only []
    cases hh : (scan img action ((SpiralIterator.track it).take f)
        { hit := false, fired := [], reads := [] }).hit <;> simp
  · rw [SpiralIterator.successes_append_false _ _ hall]
    simp only [List.nil_append] at hfired
    unfold coords
    rw [List.map_map]
    simp only [Function.comp_def]
    rw [← hfired]
    cases hh : (scan img action ((SpiralIterator.track it).take f)
        { hit := false, fired := [], reads := [] }).hit <;> simp
  · intro p hp
    have hp' : p ∈ (scan img action ((SpiralIterator.track it).take f)
        { hit := false, fired := [], reads := [] }).reads := by
      cases hh : (scan img action ((SpiralIterator.track it).take f)
        { hit := false, fired := [], reads := [] }).hit <;> simpa [hh] using hp
    rcases hreads p hp' with h1 | h1
    · simp at h1
    · unfold coords at h1 ⊢
      obtain ⟨st, hst, rfl⟩ := List.mem_map.1 h1
      exact List.mem_map.2 ⟨st, List.mem_of_mem_take hst, rfl⟩
  · rw [SpiralIterator.beforeFirstFalse_append_false _ _ hall, hs2,
      SpiralIterator.successes_append_false _ _ hall]
  · rw [SpiralIterator.successes_append_false _ _ hall]
    have hre := scan_reads_eq img action ((SpiralIterator.track it).take f)
      { hit := false, fired := [], reads := [] } rfl
    simp only [List.nil_append] at hre
    rw [← hre]
    cases hh : (scan img action ((SpiralIterator.track it).take f)
        { hit := false, fired := [], reads := [] }).hit <;> simp

namespace SpiralIterator

/-- Every pixel of the rectangle `[-M, M] x [-(M-1), M]` is a spiral position within ring `M`. -/
theorem walk_covers (it : SpiralIterator) (hs : it.Started) (M : Nat) (dx dy : Int)
    (hx : -(M : Int) ≤ dx ∧ dx ≤ M) (hy : -((M : Int) - 1) ≤ dy ∧ dy ≤ M) :
    ∃ n, n < spiralLen M ∧ (walk n it)._x = dx ∧ (walk n it)._y = dy := by
  have hinj : Function.Injective (fun n : Nat => ((walk n it)._x, (walk n it)._y)) :=
    fun n m hnm => walk_pixel_injective it hs n m (congrArg Prod.fst hnm) (congrArg Prod.snd hnm)
  have hsub : (Finset.range (spiralLen M)).image (fun n : Nat => ((walk n it)._x, (walk n it)._y))
      ⊆ Finset.Icc (-(M : Int)) M ×ˢ Finset.Icc (-((M : Int) - 1)) M := by
    intro p hp
    obtain ⟨n, hn, rfl⟩ := Finset.mem_image.1 hp
    have hr : (walk n it)._ring ≤ M := by
      rw [ring_le_iff _ (walk_onTrack it hs.1 n), walk_rank it hs.1, hs.2.1]
      have := Finset.mem_range.1 hn
      omega
    have hb := onTrack_box _ (walk_onTrack it hs.1 n)
    have hr' : ((walk n it)._ring : Int) ≤ M := by exact_mod_cast hr
    rw [Finset.mem_product, Finset.mem_Icc, Finset.mem_Icc]
    refine ⟨⟨?_, ?_⟩, ⟨?_, ?_⟩⟩ <;> simp only <;> omega
  have hcard : (Finset.Icc (-(M : Int)) M ×ˢ Finset.Icc (-((M : Int) - 1)) M).card ≤
      ((Finset.range (spiralLen M)).image
        (fun n : Nat => ((walk n it)._x, (walk n it)._y))).card := by
    rw [Finset.card_image_of_injective _ hinj, Finset.card_range, Finset.card_product,
      Int.card_Icc, Int.card_Icc]
    have e1 : ((M : Int) + 1 - -(M : Int)).toNat = 2 * M + 1 := by omega
    have e2 : ((M : Int) + 1 - -((M : Int) - 1)).toNat = 2 * M := by omega
    rw [e1, e2]
    unfold spiralLen
    exact le_of_eq (Nat.mul_comm _ _)
  have heq := Finset.eq_of_subset_of_card_le hsub hcard
  have hp : (dx, dy) ∈ Finset.Icc (-(M : Int)) M ×ˢ Finset.Icc (-((M : Int) - 1)) M := by
    rw [Finset.mem_product, Finset.mem_Icc, Finset.mem_Icc]
    exact ⟨hx, hy⟩
  rw [← heq] at hp
  obtain ⟨n, hn, hg⟩ := Finset.mem_image.1 hp
  exact ⟨n, Finset.mem_range.1 hn, congrArg Prod.fst hg, congrArg Prod.snd hg⟩

/-- The coordinates along the track are the pixels of the grid inside the rectangle
`[-M, M] x [-(M-1), M]` around the start pixel. -/
theorem mem_coords_track (it : SpiralIterator) (h : it.Fresh) (hM : 1 ≤ it._maxRing)
    (hin : ¬ it.startOutside) (a b : Int) :
    (a, b) ∈ coords (track it) ↔
      0 ≤ a ∧ a < it._w ∧ 0 ≤ b ∧ b < it._h ∧
      -(it._maxRing : Int) ≤ a - it._offsetX ∧ a - it._offsetX ≤ it._maxRing ∧
      -((it._maxRing : Int) - 1) ≤ b - it._offsetY ∧ b - it._offsetY ≤ it._maxRing := by
  have hs := started_of_fresh it h
  constructor
  · intro hab
    unfold coords at hab
    obtain ⟨st, hst, heq⟩ := List.mem_map.1 hab
    obtain ⟨hon, hox, hoy, hw, hh, hout, _, hring⟩ := track_state it h st hst
    have hb := onTrack_box st hon
    rw [max_eq_left hM] at hring
    have hring' : (st._ring : Int) ≤ it._maxRing := by exact_mod_cast hring
    simp only [s, t, Prod.mk.injEq] at heq
    unfold outside at hout
    rw [hox, hoy, hw, hh] at hout
    rw [hox, hoy] at heq
    omega
  · rintro ⟨h1, h2, h3, h4, h5, h6, h7, h8⟩
    obtain ⟨n, hn, hx, hy⟩ := walk_covers it.started hs it._maxRing (a - it._offsetX)
      (b - it._offsetY) ⟨h5, h6⟩ ⟨h7, h8⟩
    have hfix := walk_fixed it.started n
    have hnot : ¬ (walk n it.started).outside := by
      unfold outside
      rw [hfix.2.1, hfix.2.2.1, hfix.2.2.2.1, hfix.2.2.2.2.1, hx, hy]
      show ¬ (a - it._offsetX + it._offsetX < 0 ∨ a - it._offsetX + it._offsetX ≥ it._w ∨
        b - it._offsetY + it._offsetY < 0 ∨ b - it._offsetY + it._offsetY ≥ it._h)
      omega
    have hmem : n ∈ trackIdx it := by
      rw [mem_trackIdx]
      refine ⟨hin, ?_⟩
      by_cases h0 : n = 0
      · exact Or.inl h0
      · exact Or.inr ⟨by omega, hn, hnot⟩
    unfold coords
    rw [track_eq_map, List.map_map]
    refine List.mem_map.2 ⟨n, hmem, ?_⟩
    simp only [Function.comp, s, t, Prod.mk.injEq]
    rw [hfix.2.2.2.1, hfix.2.2.2.2.1, hx, hy]
    show a - it._offsetX + it._offsetX = a ∧ b - it._offsetY + it._offsetY = b
    omega

/-- When the rectangle lies inside the grid no spiral position is skipped. -/
theorem track_length_unclipped (it : SpiralIterator) (h : it.Fresh) (hM : 1 ≤ it._maxRing)
    (hclip : 0 ≤ it._offsetX - it._maxRing ∧ it._offsetX + it._maxRing < it._w ∧
      0 ≤ it._offsetY - ((it._maxRing : Int) - 1) ∧ it._offsetY + it._maxRing < it._h) :
    (track it).length = spiralLen it._maxRing := by
  have hs := started_of_fresh it h
  have hM' : (1 : Int) ≤ it._maxRing := by exact_mod_cast hM
  have hin : ¬ it.startOutside := by unfold startOutside; omega
  have hpos : 1 ≤ spiralLen it._maxRing := by
    unfold spiralLen
    exact Nat.mul_pos (by omega) (by omega)
  rw [track_eq_map, List.length_map]
  unfold trackIdx
  rw [if_neg hin, List.length_cons, List.filter_eq_self.2, List.length_range']
  · omega
  · intro n hn
    rw [List.mem_range'_1] at hn
    have hfix := walk_fixed it.started n
    have hr : (walk n it.started)._ring ≤ it._maxRing := by
      have := (walk_ring_le it.started hs n).2 (by show n < spiralLen it._maxRing; omega)
      rw [hfix.1] at this
      exact this
    have hr' : ((walk n it.started)._ring : Int) ≤ it._maxRing := by exact_mod_cast hr
    have hb := onTrack_box _ (walk_onTrack it.started hs.1 n)
    rw [decide_eq_true_eq]
    unfold outside
    rw [hfix.2.1, hfix.2.2.1, hfix.2.2.2.1, hfix.2.2.2.2.1]
    show ¬ ((walk n it.started)._x + it._offsetX < 0 ∨ (walk n it.started)._x + it._offsetX ≥ it._w ∨
        (walk n it.started)._y + it._offsetY < 0 ∨ (walk n it.started)._y + it._offsetY ≥ it._h)
    omega

theorem filter_range_length_mono (p : Nat → Bool) (a b : Nat) (h : a ≤ b) :
    ((List.range' 1 a).filter p).length ≤ ((List.range' 1 b).filter p).length := by
  obtain ⟨c, rfl⟩ : ∃ c, b = c + a := ⟨b - a, by omega⟩
  rw [← List.range'_append 1 a c 1, List.filter_append, List.length_append]
  exact Nat.le_add_right _ _

/-- Two fresh iterators that differ only in the ring bound: the one with the larger bound has
the longer track. -/
theorem track_length_mono (a b : SpiralIterator) (ha : a.Fresh) (hb : b.Fresh)
    (hw : a._w = b._w) (hh : a._h = b._h) (hox : a._offsetX = b._offsetX)
    (hoy : a._offsetY = b._offsetY) (hM : a._maxRing ≤ b._maxRing) :
    (track a).length ≤ (track b).length := by
  rw [track_eq_map, track_eq_map, List.length_map, List.length_map]
  have hso : a.startOutside ↔ b.startOutside := by
    unfold startOutside
    rw [hw, hh, hox, hoy]
  have hpred : ∀ i, decide (¬ (walk i a.started).outside) = decide (¬ (walk i b.started).outside) := by
    intro i
    have hc := walk_cursor_congr a.started b.started
      ⟨ha.1.trans hb.1.symm, ha.2.1.trans hb.2.1.symm, ha.2.2.1.trans hb.2.2.1.symm,
        ha.2.2.2.1.trans hb.2.2.2.1.symm⟩ i
    have hfa := walk_fixed a.started i
    have hfb := walk_fixed b.started i
    have : (walk i a.started).outside ↔ (walk i b.started).outside := by
      unfold outside
      rw [hfa.2.1, hfa.2.2.1, hfa.2.2.2.1, hfa.2.2.2.2.1, hfb.2.1, hfb.2.2.1, hfb.2.2.2.1,
        hfb.2.2.2.2.1, hc.2.2.1, hc.2.2.2]
      show _ + a._offsetX < 0 ∨ _ + a._offsetX ≥ a._w ∨ _ + a._offsetY < 0 ∨
        _ + a._offsetY ≥ a._h ↔ _ + b._offsetX < 0 ∨ _ + b._offsetX ≥ b._w ∨
        _ + b._offsetY < 0 ∨ _ + b._offsetY ≥ b._h
      rw [hw, hh, hox, hoy]
    simp only [this]
  unfold trackIdx
  by_cases ho : a.startOutside
  · rw [if_pos ho]; exact Nat.zero_le _
  · rw [if_neg ho, if_neg (fun hc => ho (hso.2 hc)), List.length_cons, List.length_cons]
    have hfun : (fun i => decide (¬ (walk i a.started).outside)) =
        (fun i => decide (¬ (walk i b.started).outside)) := funext hpred
    rw [hfun]
    have := filter_range_length_mono (fun i => decide (¬ (walk i b.started).outside))
      (spiralLen a._maxRing - 1) (spiralLen b._maxRing - 1)
      (Nat.sub_le_sub_right (spiralLen_mono _ _ hM) 1)
    omega

end SpiralIterator

namespace SpiralIterator

/-- The coordinates of the visible positions: the spiral positions, those outside the grid left
out. -/
theorem coords_visible (it : SpiralIterator) (n d : Nat) :
    coords (visible it n d) =
      ((List.range' (n + 1) d).map (fun i => ((walk i it).s, (walk i it).t))).filter
        (inGrid it._w it._h) := by
  unfold coords visible
  rw [List.map_map, List.filter_map]
  congr 1
  apply List.filter_congr
  intro i _
  have hfix := walk_fixed it i
  simp only [Function.comp, inGrid, s, t, outside, hfix.2.1, hfix.2.2.1]
  rw [decide_eq_decide]
  omega

/-- With ring bound 1 the track is the start pixel followed by the pixels to its right, upper
right, top, upper left and left, those outside the grid left out. -/
theorem coords_track_ring_one (it : SpiralIterator) (h : it.Fresh) (hM : it._maxRing = 1)
    (hin : ¬ it.startOutside) :
    coords (track it) =
      [(it._offsetX, it._offsetY), (it._offsetX + 1, it._offsetY),
        (it._offsetX + 1, it._offsetY + 1), (it._offsetX, it._offsetY + 1),
        (it._offsetX - 1, it._offsetY + 1), (it._offsetX - 1, it._offsetY)].filter
        (inGrid it._w it._h) := by
  obtain ⟨r, m, l, x, y, w, hh, ox, oy, c⟩ := it
  obtain ⟨h1, h2, h3, h4, h5⟩ := h
  simp only at h1 h2 h3 h4 h5 hM
  subst h1 h2 h3 h4 h5 hM
  have hstart : inGrid w hh (ox, oy) = true := by
    unfold startOutside at hin
    simp only [inGrid, decide_eq_true_eq]
    simp only at hin
    omega
  unfold track
  rw [if_neg hin]
  have hc : coords ((started ⟨1, 1, 0, 0, 0, w, hh, ox, oy, 0⟩) ::
      visible (started ⟨1, 1, 0, 0, 0, w, hh, ox, oy, 0⟩) 0 (spiralLen 1 - 1)) =
      ((started ⟨1, 1, 0, 0, 0, w, hh, ox, oy, 0⟩).s,
        (started ⟨1, 1, 0, 0, 0, w, hh, ox, oy, 0⟩).t) ::
        coords (visible (started ⟨1, 1, 0, 0, 0, w, hh, ox, oy, 0⟩) 0 (spiralLen 1 - 1)) := rfl
  rw [hc, coords_visible]
  have hr : List.range' (0 + 1) (spiralLen 1 - 1) = [1, 2, 3, 4, 5] := by decide
  rw [hr, List.filter_cons, if_pos hstart]
  simp [walk, spiralStep, started, s, t]
  rw [add_comm 1 ox, add_comm 1 oy, show (-1 : Int) + ox = ox - 1 by ring]

end SpiralIterator

/-! ## The claims -/

/-- C7, as the code has it: if the start pixel the constructor computes, the floor of the
`float` products `u * (float)W` and `v * (float)H`, lies in `[0,W)x[0,H)`, the first call of
`next()` returns `true` and the coordinate `(s(), t())` it exposes is that pixel. -/
theorem C7_first_call_is_start_pixel (w h maxDist : Int) (u v : ℚ) (fuel : Nat)
    (hx : 0 ≤ ⌊toFloat (u * toFloat (w : ℚ))⌋ ∧ ⌊toFloat (u * toFloat (w : ℚ))⌋ < w)
    (hy : 0 ≤ ⌊toFloat (v * toFloat (h : ℚ))⌋ ∧ ⌊toFloat (v * toFloat (h : ℚ))⌋ < h) :
    ∃ it1, (SpiralIterator.new w h maxDist u v).next fuel = some (true, it1) ∧
      it1.s = ⌊toFloat (u * toFloat (w : ℚ))⌋ ∧ it1.t = ⌊toFloat (v * toFloat (h : ℚ))⌋ := by
  have hu : 0 ≤ toFloat (u * toFloat (w : ℚ)) := Int.floor_nonneg.1 hx.1
  have hv : 0 ≤ toFloat (v * toFloat (h : ℚ)) := Int.floor_nonneg.1 hy.1
  have hcx := SpiralIterator.castInt_of_nonneg _ hu
  have hcy := SpiralIterator.castInt_of_nonneg _ hv
  refine ⟨(SpiralIterator.new w h maxDist u v).started, ?_, ?_, ?_⟩
  · unfold SpiralIterator.next
    rw [if_pos (by rfl)]
    refine if_neg ?_
    simp only [SpiralIterator.new, hcx, hcy]
    omega
  · simp [SpiralIterator.s, SpiralIterator.started, SpiralIterator.new, hcx]
  · simp [SpiralIterator.t, SpiralIterator.started, SpiralIterator.new, hcy]

/-- C7 (amended), at a concrete input: a 4x4 grid, `u = v = 1/2`, start pixel `(2,2)`. -/
theorem C7_witness :
    ∃ it1, (SpiralIterator.new 4 4 1 (1 / 2) (1 / 2)).next 0 = some (true, it1) ∧
      it1.s = ⌊toFloat ((1 / 2 : ℚ) * toFloat ((4 : Int) : ℚ))⌋ ∧
      it1.t = ⌊toFloat ((1 / 2 : ℚ) * toFloat ((4 : Int) : ℚ))⌋ :=
  C7_first_call_is_start_pixel 4 4 1 (1 / 2) (1 / 2) 0
    (by
      have e : toFloat ((1 / 2 : ℚ) * toFloat ((4 : Int) : ℚ)) = 2 := by
        rw [Int.cast_ofNat, toFloat_four, show (1 / 2 : ℚ) * 4 = 2 by norm_num, toFloat_two]
      rw [e]; norm_num)
    (by
      have e : toFloat ((1 / 2 : ℚ) * toFloat ((4 : Int) : ℚ)) = 2 := by
        rw [Int.cast_ofNat, toFloat_four, show (1 / 2 : ℚ) * 4 = 2 by norm_num, toFloat_two]
      rw [e]; norm_num)

/-- C7 fails as stated: `u = 11744051/16777216` is the `float` 0.7f and `W = 10`; the exact
product is below 7, so the start pixel by floor is column 6, inside the grid, but the `float`
product rounds to 7 and the first call of `next()` exposes column 7. -/
theorem C7_counterexample :
    toFloat (7 / 10) = 11744051 / 16777216 ∧
    toFloat (11744051 / 16777216) = 11744051 / 16777216 ∧
    ⌊(11744051 / 16777216 : ℚ) * ((10 : Int) : ℚ)⌋ = 6 ∧
    ⌊(1 / 2 : ℚ) * ((10 : Int) : ℚ)⌋ = 5 ∧
    ∃ it1, (SpiralIterator.new 10 10 1 (11744051 / 16777216) (1 / 2)).next 0 =
        some (true, it1) ∧ it1.s = 7 ∧ it1.t = 5 := by
  have hx : castInt (toFloat ((11744051 / 16777216 : ℚ) * toFloat ((10 : Int) : ℚ))) = 7 := by
    rw [Int.cast_ofNat, toFloat_ten, toFloat_seven_tenths_times_ten]
    norm_num [castInt]
  have hy : castInt (toFloat ((1 / 2 : ℚ) * toFloat ((10 : Int) : ℚ))) = 5 := by
    rw [Int.cast_ofNat, toFloat_ten, show (1 / 2 : ℚ) * 10 = 5 by norm_num, toFloat_five]
    norm_num [castInt]
  have hnew : SpiralIterator.new 10 10 1 (11744051 / 16777216) (1 / 2) =
      ⟨1, 1, 0, 0, 0, 10, 10, 7, 5, 0⟩ := by
    simp only [SpiralIterator.new, hx, hy]
    rfl
  refine ⟨toFloat_of_seven_tenths, toFloat_seven_tenths, ?_, ?_, ?_⟩
  · rw [Int.floor_eq_iff]; norm_num
  · rw [Int.floor_eq_iff]; norm_num
  · rw [hnew]
    exact ⟨⟨1, 1, 0, 0, 0, 10, 10, 7, 5, 1⟩, by decide, by decide, by decide⟩

/-- C3, as the code has it: when the start pixel the constructor computes,
`((int)(u*(float)W), (int)(v*(float)H))` with the cast truncating toward zero, lies outside `[0,W)x[0,H)`,
the first call of `next()` and every later call return `false` and leave the iterator as it
was, so no coordinate is produced. -/
theorem C3_start_outside_produces_nothing (w h maxDist : Int) (u v : ℚ) (fuel k : Nat)
    (hout : castInt (toFloat (u * toFloat (w : ℚ))) < 0 ∨ castInt (toFloat (u * toFloat (w : ℚ))) ≥ w ∨
      castInt (toFloat (v * toFloat (h : ℚ))) < 0 ∨ castInt (toFloat (v * toFloat (h : ℚ))) ≥ h) :
    SpiralIterator.calls fuel k (SpiralIterator.new w h maxDist u v) =
        some (List.replicate k (false, SpiralIterator.new w h maxDist u v)) ∧
      successes (List.replicate k (false, SpiralIterator.new w h maxDist u v)) = [] := by
  refine ⟨SpiralIterator.calls_fresh_outside _ (SpiralIterator.fresh_new w h maxDist u v)
    hout fuel k, ?_⟩
  unfold successes
  rw [List.map_eq_nil_iff, List.filter_eq_nil_iff]
  intro e he
  rw [(List.mem_replicate.1 he).2]
  simp

/-- C3 (amended), at a concrete input: a 4x4 grid and `u = 5/4`, whose start column is 5. -/
theorem C3_witness :
    SpiralIterator.calls 0 3 (SpiralIterator.new 4 4 2 (5 / 4) 0) =
        some (List.replicate 3 (false, SpiralIterator.new 4 4 2 (5 / 4) 0)) ∧
      successes (List.replicate 3 (false, SpiralIterator.new 4 4 2 (5 / 4) 0)) = [] :=
  C3_start_outside_produces_nothing 4 4 2 (5 / 4) 0 0 3
    (Or.inr (Or.inl (by
      rw [Int.cast_ofNat, toFloat_four, show (5 / 4 : ℚ) * 4 = 5 by norm_num, toFloat_five]
      norm_num [castInt])))

/-- C3 fails as stated: on a 4x4 grid with `u = -1/8`, `v = 0` the point `(u,v)` is outside
`[0,1)x[0,1)` and the start pixel by floor is `(-1, 0)`, outside the grid, yet the product
`-1/2` is exact, the cast truncates it to 0 and the first call of `next()` returns `true` with
coordinate `(0,0)`. -/
theorem C3_counterexample :
    ¬ (0 ≤ (-1 / 8 : ℚ) ∧ (-1 / 8 : ℚ) < 1) ∧
    ⌊(-1 / 8 : ℚ) * ((4 : Int) : ℚ)⌋ < 0 ∧
    ∃ it1, (SpiralIterator.new 4 4 1 (-1 / 8) 0).next 0 = some (true, it1) ∧
      it1.s = 0 ∧ it1.t = 0 := by
  have hnew : SpiralIterator.new 4 4 1 (-1 / 8) 0 = ⟨1, 1, 0, 0, 0, 4, 4, 0, 0, 0⟩ := by
    have h1 : castInt (toFloat ((-1 / 8 : ℚ) * toFloat ((4 : Int) : ℚ))) = 0 := by
      rw [Int.cast_ofNat, toFloat_four, show (-1 / 8 : ℚ) * 4 = -1 / 2 by norm_num,
        toFloat_neg_half]
      norm_num [castInt]; rfl
    have h2 : castInt (toFloat ((0 : ℚ) * toFloat ((4 : Int) : ℚ))) = 0 := by
      rw [zero_mul]
      unfold toFloat
      rw [roundBinary_zero]
      norm_num [castInt]
    simp only [SpiralIterator.new, h1, h2]
    rfl
  refine ⟨by norm_num, ?_, ?_⟩
  · rw [Int.floor_lt]; norm_num
  · rw [hnew]
    exact ⟨⟨1, 1, 0, 0, 0, 4, 4, 0, 0, 1⟩, by decide, by decide, by decide⟩

/-- The decode of `pick` on byte-valued channels is the plain sum of the shifted bytes. -/
theorem decodeID_bytes (c : Channels) (hr : c.r ≤ 255) (hg : c.g ≤ 255) (hb : c.b ≤ 255)
    (ha : c.a ≤ 255) :
    (decodeID c : Nat) = 2 ^ 24 * c.r + (2 ^ 16 * c.g + (2 ^ 8 * c.b + c.a)) := by
  unfold decodeID u32
  simp only [Nat.shiftLeft_eq, Nat.reducePow]
  rw [Nat.mod_eq_of_lt (by omega : c.r * 16777216 < 4294967296),
    Nat.mod_eq_of_lt (by omega : c.g * 65536 < 4294967296),
    Nat.mod_eq_of_lt (by omega : c.b * 256 < 4294967296),
    Nat.mod_eq_of_lt (by omega : c.a < 4294967296),
    Nat.mod_eq_of_lt (by omega : c.r * 16777216 + c.g * 65536 < 4294967296),
    Nat.mod_eq_of_lt (by omega : c.r * 16777216 + c.g * 65536 + c.b * 256 < 4294967296),
    Nat.mod_eq_of_lt (by omega : c.r * 16777216 + c.g * 65536 + c.b * 256 + c.a < 4294967296)]
  change @Eq Nat _ _
  omega

/-- The byte split yields bytes whose weighted sum is the identifier. -/
theorem encodeID_bytes (id : Nat) (h2 : id ≤ 2 ^ 32 - 1) :
    (encodeID id).r ≤ 255 ∧ (encodeID id).g ≤ 255 ∧ (encodeID id).b ≤ 255 ∧
      (encodeID id).a ≤ 255 ∧
      2 ^ 24 * (encodeID id).r + (2 ^ 16 * (encodeID id).g +
        (2 ^ 8 * (encodeID id).b + (encodeID id).a)) = id := by
  have e1 : id &&& 255 = id % 256 := Nat.and_pow_two_sub_one_eq_mod id 8
  have e2 : (id / 256) &&& 255 = (id / 256) % 256 := Nat.and_pow_two_sub_one_eq_mod _ 8
  have e3 : (id / 65536) &&& 255 = (id / 65536) % 256 := Nat.and_pow_two_sub_one_eq_mod _ 8
  have d1 := Nat.div_add_mod id 256
  have d2 := Nat.div_add_mod (id / 256) 256
  have d3 := Nat.div_add_mod (id / 65536) 256
  have q2 : id / 256 / 256 = id / 65536 := Nat.div_div_eq_div_mul _ _ _
  have q3 : id / 65536 / 256 = id / 16777216 := Nat.div_div_eq_div_mul _ _ _
  rw [q2] at d2
  rw [q3] at d3
  have m1 := Nat.mod_lt id (by decide : 256 > 0)
  have m2 := Nat.mod_lt (id / 256) (by decide : 256 > 0)
  have m3 := Nat.mod_lt (id / 65536) (by decide : 256 > 0)
  simp only [encodeID, Nat.shiftRight_eq_div_pow, Nat.reducePow, e1, e2, e3] at h2 ⊢
  generalize id % 256 = r0 at *
  generalize id / 256 % 256 = r1 at *
  generalize id / 65536 % 256 = r2 at *
  generalize id / 256 = a at *
  generalize id / 65536 = b at *
  generalize id / 16777216 = c at *
  omega

/-- The formula of the spec on byte-valued channels is the plain sum of the shifted bytes. -/
theorem specDecode_bytes (c : Channels) (hg : c.g ≤ 255) (hb : c.b ≤ 255) (ha : c.a ≤ 255) :
    (specDecode c : Nat) = 2 ^ 24 * c.r + (2 ^ 16 * c.g + (2 ^ 8 * c.b + c.a)) := by
  unfold specDecode
  simp only [Nat.shiftLeft_eq]
  rw [Nat.mul_comm c.r, Nat.mul_comm c.g, Nat.mul_comm c.b, Nat.lor_assoc, Nat.lor_assoc,
    ← Nat.mul_add_lt_is_or (by omega : c.a < 2 ^ 8),
    ← Nat.mul_add_lt_is_or (by omega : 2 ^ 8 * c.b + c.a < 2 ^ 16),
    ← Nat.mul_add_lt_is_or (by omega : 2 ^ 16 * c.g + (2 ^ 8 * c.b + c.a) < 2 ^ 24)]

/-- C5: for every identifier `id` in `[1, 2^32-1]` the big-endian byte split followed by the
decode of `pick` (shifts and sums in unsigned 32-bit arithmetic) gives back `id`, and on all
channel values in `0..255` the decode of `pick` agrees with the formula
`(r<<24)|(g<<16)|(b<<8)|a` of the spec. -/
theorem C5_decode_round_trip (id : ObjectID) (c : Channels) (_h1 : 1 ≤ id) (h2 : id ≤ 2 ^ 32 - 1)
    (hr : c.r ≤ 255) (hg : c.g ≤ 255) (hb : c.b ≤ 255) (ha : c.a ≤ 255) :
    decodeID (encodeID id) = id ∧ decodeID c = specDecode c := by
  constructor
  · obtain ⟨b1, b2, b3, b4, hsum⟩ := encodeID_bytes id h2
    rw [decodeID_bytes _ b1 b2 b3 b4]
    exact hsum
  · rw [decodeID_bytes c hr hg hb ha, specDecode_bytes c hg hb ha]

/-- C5, at a concrete input: the identifier 305419896 = 0x12345678 and the channels
`(1, 2, 3, 4)`. -/
theorem C5_witness :
    decodeID (encodeID 305419896) = 305419896 ∧
      decodeID ⟨1, 2, 3, 4⟩ = specDecode ⟨1, 2, 3, 4⟩ :=
  C5_decode_round_trip 305419896 ⟨1, 2, 3, 4⟩ (by decide) (by decide) (by decide) (by decide)
    (by decide) (by decide)

/-- C8, the failing input: before any view is bound there is no offscreen camera, and
`setGraph` with a non-null node dereferences the null `_rtt` in `_rtt->addChild(value)`. -/
theorem C8_setGraph_without_camera_faults (graph : Option Node) (node : Node) :
    ObjectIDPicker.setGraph { _graph := graph, _rtt := none } (some node) = none := rfl

/-- When the offscreen camera exists, `setGraph` with a non-null node records the node and
leaves the camera with exactly that one child. -/
theorem setGraph_with_camera (graph : Option Node) (cam : Camera) (node : Node) :
    ObjectIDPicker.setGraph { _graph := graph, _rtt := some cam } (some node) =
      some { _graph := some node, _rtt := some { children := [node] } } := by
  simp [ObjectIDPicker.setGraph, Camera.removeChildren, Camera.addChild, Camera.getNumChildren]

/-- C6: among the first `k` calls of `next()` on one iterator, for every `k`, the coordinates
exposed by the calls that returned `true` are pairwise distinct. -/
theorem C6_no_coordinate_twice (w h maxDist : Int) (u v : ℚ) (k extra : Nat) :
    ∃ l, SpiralIterator.calls (SpiralIterator.spiralFuel (toUnsigned maxDist) + extra) k
        (SpiralIterator.new w h maxDist u v) = some l ∧
      (coords (successes l)).Nodup := by
  have hfresh := SpiralIterator.fresh_new w h maxDist u v
  obtain ⟨F, hF, hall⟩ := SpiralIterator.calls_fresh (SpiralIterator.new w h maxDist u v) hfresh
    (SpiralIterator.spiralFuel (toUnsigned maxDist) + extra) k (Nat.le_add_right _ _)
  refine ⟨_, hF, ?_⟩
  rw [SpiralIterator.successes_append_false _ _ hall]
  have hnd := SpiralIterator.track_coords_nodup _ hfresh
  unfold coords at hnd ⊢
  exact hnd.sublist ((List.take_sublist _ _).map _)

/-- C1: on a view without slave cameras `pick` fires `onPick` exactly once (followed by the one
deprecated notification), with the action kind of the call and the identifier decoded from the
first coordinate, in the order in which the calls of `next()` produce them, whose pixel decodes
to a nonzero value, and with identifier 0 when there is no such coordinate.  The list `l` of
calls reaches the first `false`, and all calls that return `true` come before it. -/
theorem C1_pick_fires_onPick_once (img : Image) (buffer : Int) (vp : Viewport) (x y : ℚ)
    (action : ActionType) (extra : Nat) :
    ∃ l st,
      SpiralIterator.calls
          (SpiralIterator.spiralFuel (toUnsigned (max buffer 1)) + extra)
          (SpiralIterator.spiralFuel (toUnsigned (max buffer 1)) + extra)
          (SpiralIterator.new img.s img.t (max buffer 1)
            (viewportFraction x vp.x vp.width) (viewportFraction y vp.y vp.height)) = some l ∧
      pick img buffer 0 vp x y action
          (SpiralIterator.spiralFuel (toUnsigned (max buffer 1)) + extra) = some st ∧
      st.fired.filter isOnPick =
        [Notification.onPick
          (firstNonzero ((coords (successes l)).map (fun c => decodeID (img.channels c.1 c.2))))
          action] ∧
      st.fired.length = 2 ∧
      (∃ e ∈ l, e.1 = false) ∧ successes (beforeFirstFalse l) = successes l := by
  obtain ⟨l, st, hl, hst, hfired, _, hfalse, hsame, _, _⟩ := pickFrom_fresh img action
    (SpiralIterator.new img.s img.t (max buffer 1)
      (viewportFraction x vp.x vp.width) (viewportFraction y vp.y vp.height))
    (SpiralIterator.fresh_new _ _ _ _ _)
    (SpiralIterator.spiralFuel (toUnsigned (max buffer 1)) + extra) (Nat.le_add_right _ _)
  refine ⟨l, st, hl, ?_, ?_, ?_, hfalse, hsame⟩
  · unfold pick
    rw [if_neg (by simp)]
    exact hst
  · rw [hfired]
    unfold backwardsCompat
    split_ifs <;> simp [isOnPick]
  · rw [hfired]; rfl

/-- C4: for a ring bound `M` with `0 <= M` (an `int`), the number of calls of `next()` that
return `true` before the first `false` is at most `(2M+1)^2`, and it is not larger than the
number for the bound `M+1` on the same grid and start; once `k` exceeds `(2M+3)^2` the first
`false` lies among the `k` calls observed. -/
theorem C4_count_bounded_and_monotone (w h M : Int) (u v : ℚ) (k extra : Nat)
    (hM0 : 0 ≤ M) (hM : M < 2 ^ 31) :
    ∃ l1 l2,
      SpiralIterator.calls (SpiralIterator.spiralFuel (toUnsigned (M + 1)) + extra) k
        (SpiralIterator.new w h M u v) = some l1 ∧
      SpiralIterator.calls (SpiralIterator.spiralFuel (toUnsigned (M + 1)) + extra) k
        (SpiralIterator.new w h (M + 1) u v) = some l2 ∧
      ((beforeFirstFalse l1).length : Int) ≤ (2 * M + 1) ^ 2 ∧
      (beforeFirstFalse l1).length ≤ (beforeFirstFalse l2).length ∧
      ((2 * M + 3) ^ 2 < (k : Int) → (∃ e ∈ l1, e.1 = false) ∧ (∃ e ∈ l2, e.1 = false)) := by
  have hu1 := SpiralIterator.toUnsigned_of_range M hM0 (by omega)
  have hu2 := SpiralIterator.toUnsigned_of_range (M + 1) (by omega) (by omega)
  have hle : toUnsigned M ≤ toUnsigned (M + 1) := by omega
  have hf1 := SpiralIterator.fresh_new w h M u v
  have hf2 := SpiralIterator.fresh_new w h (M + 1) u v
  obtain ⟨F1, hF1, hall1⟩ := SpiralIterator.calls_fresh (SpiralIterator.new w h M u v) hf1
    (SpiralIterator.spiralFuel (toUnsigned (M + 1)) + extra) k
    (le_trans (Nat.add_le_add_right (SpiralIterator.spiralLen_mono _ _ hle) 2)
      (Nat.le_add_right _ _))
  obtain ⟨F2, hF2, hall2⟩ := SpiralIterator.calls_fresh (SpiralIterator.new w h (M + 1) u v) hf2
    (SpiralIterator.spiralFuel (toUnsigned (M + 1)) + extra) k (Nat.le_add_right _ _)
  have hlen1 := calls_length _ _ _ _ hF1
  have hlen2 := calls_length _ _ _ _ hF2
  have ht1 := SpiralIterator.track_length (SpiralIterator.new w h M u v)
  have ht2 := SpiralIterator.track_length (SpiralIterator.new w h (M + 1) u v)
  have hmono := SpiralIterator.track_length_mono (SpiralIterator.new w h M u v)
    (SpiralIterator.new w h (M + 1) u v) hf1 hf2 rfl rfl rfl rfl hle
  have hm1 : (SpiralIterator.new w h M u v)._maxRing = toUnsigned M := rfl
  have hm2 : (SpiralIterator.new w h (M + 1) u v)._maxRing = toUnsigned (M + 1) := rfl
  rw [hm1] at ht1
  rw [hm2] at ht2
  have hs1 : ((SpiralIterator.spiralLen (toUnsigned M) : Nat) : Int) = 2 * M * (2 * M + 1) := by
    unfold SpiralIterator.spiralLen
    push_cast
    rw [hu1]
  have hs2 : ((SpiralIterator.spiralLen (toUnsigned (M + 1)) : Nat) : Int) =
      2 * (M + 1) * (2 * (M + 1) + 1) := by
    unfold SpiralIterator.spiralLen
    push_cast
    rw [hu2]
  have hk1 : ((SpiralIterator.track (SpiralIterator.new w h M u v)).take k).length ≤
      (SpiralIterator.track (SpiralIterator.new w h M u v)).length :=
    (List.take_sublist _ _).length_le
  have hk2 : ((SpiralIterator.track (SpiralIterator.new w h (M + 1) u v)).take k).length ≤
      (SpiralIterator.track (SpiralIterator.new w h (M + 1) u v)).length :=
    (List.take_sublist _ _).length_le
  have hb1 : (((SpiralIterator.track (SpiralIterator.new w h M u v)).length : Nat) : Int) ≤
      (2 * M + 1) ^ 2 := by
    have : (((SpiralIterator.track (SpiralIterator.new w h M u v)).length : Nat) : Int) ≤
        1 + ((SpiralIterator.spiralLen (toUnsigned M) : Nat) : Int) := by
      have := ht1
      omega
    nlinarith
  have hb2 : (((SpiralIterator.track (SpiralIterator.new w h (M + 1) u v)).length : Nat) : Int) ≤
      (2 * M + 3) ^ 2 := by
    have : (((SpiralIterator.track (SpiralIterator.new w h (M + 1) u v)).length : Nat) : Int) ≤
        1 + ((SpiralIterator.spiralLen (toUnsigned (M + 1)) : Nat) : Int) := by
      have := ht2
      omega
    nlinarith
  refine ⟨_, _, hF1, hF2, ?_, ?_, ?_⟩
  · rw [SpiralIterator.beforeFirstFalse_append_false _ _ hall1, List.length_map]
    have : ((((SpiralIterator.track (SpiralIterator.new w h M u v)).take k).length : Nat) : Int) ≤
        (((SpiralIterator.track (SpiralIterator.new w h M u v)).length : Nat) : Int) := by
      exact_mod_cast hk1
    exact le_trans this hb1
  · rw [SpiralIterator.beforeFirstFalse_append_false _ _ hall1,
      SpiralIterator.beforeFirstFalse_append_false _ _ hall2, List.length_map, List.length_map,
      List.length_take, List.length_take]
    exact min_le_min (le_refl k) hmono
  · intro hk
    rw [List.length_append, List.length_map] at hlen1 hlen2
    have hb1' : (2 * M + 1) ^ 2 ≤ (2 * M + 3) ^ 2 := by nlinarith
    constructor
    · cases F1 with
      | nil =>
        exfalso
        simp only [List.length_nil, Nat.add_zero] at hlen1
        have : ((((SpiralIterator.track (SpiralIterator.new w h M u v)).take k).length : Nat) :
            Int) = k := by exact_mod_cast hlen1
        have h3 : ((((SpiralIterator.track (SpiralIterator.new w h M u v)).take k).length :
            Nat) : Int) ≤ (((SpiralIterator.track (SpiralIterator.new w h M u v)).length : Nat) :
            Int) := by exact_mod_cast hk1
        omega
      | cons e F1 => exact ⟨e, by simp, hall1 e (List.mem_cons_self _ _)⟩
    · cases F2 with
      | nil =>
        exfalso
        simp only [List.length_nil, Nat.add_zero] at hlen2
        have : ((((SpiralIterator.track (SpiralIterator.new w h (M + 1) u v)).take k).length :
            Nat) : Int) = k := by exact_mod_cast hlen2
        have h3 : ((((SpiralIterator.track (SpiralIterator.new w h (M + 1) u v)).take k).length :
            Nat) : Int) ≤ (((SpiralIterator.track (SpiralIterator.new w h (M + 1) u v)).length :
            Nat) : Int) := by exact_mod_cast hk2
        omega
      | cons e F2 => exact ⟨e, by simp, hall2 e (List.mem_cons_self _ _)⟩

/-- C4, at a concrete input: a 5x5 grid, start at the centre, bounds 1 and 2, 30 calls. -/
theorem C4_witness :
    ∃ l1 l2,
      SpiralIterator.calls (SpiralIterator.spiralFuel (toUnsigned (1 + 1)) + 0) 30
        (SpiralIterator.new 5 5 1 (1 / 2) (1 / 2)) = some l1 ∧
      SpiralIterator.calls (SpiralIterator.spiralFuel (toUnsigned (1 + 1)) + 0) 30
        (SpiralIterator.new 5 5 (1 + 1) (1 / 2) (1 / 2)) = some l2 ∧
      ((beforeFirstFalse l1).length : Int) ≤ (2 * 1 + 1) ^ 2 ∧
      (beforeFirstFalse l1).length ≤ (beforeFirstFalse l2).length ∧
      ((2 * 1 + 3) ^ 2 < ((30 : Nat) : Int) →
        (∃ e ∈ l1, e.1 = false) ∧ (∃ e ∈ l2, e.1 = false)) :=
  C4_count_bounded_and_monotone 5 5 1 (1 / 2) (1 / 2) 30 0 (by decide) (by decide)

/-- C9, as the code has it: a coordinate produced while `_ring` has the value `k` lies on the
boundary of the rectangle `[-k, k] x [-(k-1), k]` around the start pixel, whose lower row is
the row `-(k-1)`; so its Chebyshev distance from the start pixel is `k-1` or `k`. -/
theorem C9_ring_rectangle (w h maxDist : Int) (u v : ℚ) (k extra : Nat) :
    ∃ l, SpiralIterator.calls (SpiralIterator.spiralFuel (toUnsigned maxDist) + extra) k
        (SpiralIterator.new w h maxDist u v) = some l ∧
      ∀ st ∈ successes l,
        1 ≤ st._ring ∧
        -(st._ring : Int) ≤ st.s - castInt (toFloat (u * toFloat (w : ℚ))) ∧
        st.s - castInt (toFloat (u * toFloat (w : ℚ))) ≤ st._ring ∧
        -((st._ring : Int) - 1) ≤ st.t - castInt (toFloat (v * toFloat (h : ℚ))) ∧
        st.t - castInt (toFloat (v * toFloat (h : ℚ))) ≤ st._ring ∧
        (st.t - castInt (toFloat (v * toFloat (h : ℚ))) = -((st._ring : Int) - 1) ∨
          st.s - castInt (toFloat (u * toFloat (w : ℚ))) = st._ring ∨
          st.t - castInt (toFloat (v * toFloat (h : ℚ))) = st._ring ∨
          st.s - castInt (toFloat (u * toFloat (w : ℚ))) = -(st._ring : Int)) ∧
        (st._ring : Int) - 1 ≤
          max |st.s - castInt (toFloat (u * toFloat (w : ℚ)))| |st.t - castInt (toFloat (v * toFloat (h : ℚ)))| ∧
        max |st.s - castInt (toFloat (u * toFloat (w : ℚ)))| |st.t - castInt (toFloat (v * toFloat (h : ℚ)))| ≤ st._ring := by
  have hfresh := SpiralIterator.fresh_new w h maxDist u v
  obtain ⟨F, hF, hall⟩ := SpiralIterator.calls_fresh (SpiralIterator.new w h maxDist u v) hfresh
    (SpiralIterator.spiralFuel (toUnsigned maxDist) + extra) k (Nat.le_add_right _ _)
  refine ⟨_, hF, ?_⟩
  rw [SpiralIterator.successes_append_false _ _ hall]
  intro st hst
  obtain ⟨hon, hox, hoy, _, _, _, h1, _⟩ :=
    SpiralIterator.track_state _ hfresh st (List.mem_of_mem_take hst)
  have hb := SpiralIterator.onTrack_box st hon
  have hx : st.s - castInt (toFloat (u * toFloat (w : ℚ))) = st._x := by
    have : st._offsetX = castInt (toFloat (u * toFloat (w : ℚ))) := hox
    unfold SpiralIterator.s
    omega
  have hy : st.t - castInt (toFloat (v * toFloat (h : ℚ))) = st._y := by
    have : st._offsetY = castInt (toFloat (v * toFloat (h : ℚ))) := hoy
    unfold SpiralIterator.t
    omega
  rw [hx, hy]
  have h1' : (1 : Int) ≤ st._ring := by exact_mod_cast h1
  refine ⟨h1, hb.1, hb.2.1, hb.2.2.1, hb.2.2.2.1, hb.2.2.2.2, ?_, ?_⟩
  · rw [le_max_iff]
    rcases hb.2.2.2.2 with e | e | e | e
    · right; rw [e, abs_neg]; exact le_abs_self _
    · left; rw [e]; exact le_trans (by omega) (le_abs_self _)
    · right; rw [e]; exact le_trans (by omega) (le_abs_self _)
    · left; rw [e, abs_neg]; exact le_trans (by omega) (le_abs_self _)
  · rw [max_le_iff, abs_le, abs_le]
    omega

/-- C9 fails as stated: on a 5x5 grid with start pixel `(2,2)` and ring bound 2, the seventh
and eighth calls of `next()` both return with `_ring = 2`, and the eighth exposes `(2,1)`,
whose Chebyshev distance from the start pixel is 1, not 2. -/
theorem C9_counterexample :
    (SpiralIterator.calls 22 8 (SpiralIterator.new 5 5 2 (1 / 2) (1 / 2))).map
        (fun l => l.map (fun e => (e.1, e.2._ring, e.2.s, e.2.t))) =
      some [(true, 1, 2, 2), (true, 1, 3, 2), (true, 1, 3, 3), (true, 1, 2, 3), (true, 1, 1, 3),
        (true, 1, 1, 2), (true, 2, 1, 1), (true, 2, 2, 1)] ∧
    castInt (toFloat ((1 / 2 : ℚ) * toFloat ((5 : Int) : ℚ))) = 2 ∧
    max |(2 : Int) - 2| |(1 : Int) - 2| ≠ 2 := by
  have hc : castInt (toFloat ((1 / 2 : ℚ) * toFloat ((5 : Int) : ℚ))) = 2 := by
    rw [Int.cast_ofNat, toFloat_five, show (1 / 2 : ℚ) * 5 = 5 / 2 by norm_num,
      toFloat_five_halves]
    norm_num [castInt]; rfl
  have hnew : SpiralIterator.new 5 5 2 (1 / 2) (1 / 2) = ⟨1, 2, 0, 0, 0, 5, 5, 2, 2, 0⟩ := by
    simp only [SpiralIterator.new, hc]
    rfl
  refine ⟨?_, hc, by decide⟩
  rw [hnew]
  decide

/-- C10: for a ring bound `M >= 1` (an `int`) and a start pixel inside the grid, the
coordinates produced by the calls of `next()`, once at least `2M(2M+1)` calls are made, are
exactly the pixels of the grid in the rectangle `-M <= dx <= M`, `-(M-1) <= dy <= M` around the
start pixel; when that rectangle lies inside the grid their number is `2M(2M+1)`. -/
theorem C10_sampled_set (w h M : Int) (u v : ℚ) (k extra : Nat)
    (hstart : 0 ≤ castInt (toFloat (u * toFloat (w : ℚ))) ∧ castInt (toFloat (u * toFloat (w : ℚ))) < w ∧
      0 ≤ castInt (toFloat (v * toFloat (h : ℚ))) ∧ castInt (toFloat (v * toFloat (h : ℚ))) < h)
    (hM1 : 1 ≤ M) (hM : M < 2 ^ 31) (hk : 2 * M * (2 * M + 1) ≤ (k : Int)) :
    ∃ l, SpiralIterator.calls (SpiralIterator.spiralFuel (toUnsigned M) + extra) k
        (SpiralIterator.new w h M u v) = some l ∧
      (∀ a b : Int, (a, b) ∈ coords (successes l) ↔
        0 ≤ a ∧ a < w ∧ 0 ≤ b ∧ b < h ∧
        -M ≤ a - castInt (toFloat (u * toFloat (w : ℚ))) ∧ a - castInt (toFloat (u * toFloat (w : ℚ))) ≤ M ∧
        -(M - 1) ≤ b - castInt (toFloat (v * toFloat (h : ℚ))) ∧ b - castInt (toFloat (v * toFloat (h : ℚ))) ≤ M) ∧
      (0 ≤ castInt (toFloat (u * toFloat (w : ℚ))) - M ∧ castInt (toFloat (u * toFloat (w : ℚ))) + M < w ∧
        0 ≤ castInt (toFloat (v * toFloat (h : ℚ))) - (M - 1) ∧ castInt (toFloat (v * toFloat (h : ℚ))) + M < h →
        ((successes l).length : Int) = 2 * M * (2 * M + 1)) := by
  have hu := SpiralIterator.toUnsigned_of_range M (by omega) (by omega)
  have hfresh := SpiralIterator.fresh_new w h M u v
  have hmr : (SpiralIterator.new w h M u v)._maxRing = toUnsigned M := rfl
  have hM' : 1 ≤ (SpiralIterator.new w h M u v)._maxRing := by rw [hmr]; omega
  have hin : ¬ (SpiralIterator.new w h M u v).startOutside := by
    unfold SpiralIterator.startOutside
    show ¬ (castInt (toFloat (u * toFloat (w : ℚ))) < 0 ∨ castInt (toFloat (u * toFloat (w : ℚ))) ≥ w ∨
      castInt (toFloat (v * toFloat (h : ℚ))) < 0 ∨ castInt (toFloat (v * toFloat (h : ℚ))) ≥ h)
    omega
  obtain ⟨F, hF, hall⟩ := SpiralIterator.calls_fresh (SpiralIterator.new w h M u v) hfresh
    (SpiralIterator.spiralFuel (toUnsigned M) + extra) k (Nat.le_add_right _ _)
  have hs : ((SpiralIterator.spiralLen (toUnsigned M) : Nat) : Int) = 2 * M * (2 * M + 1) := by
    unfold SpiralIterator.spiralLen
    push_cast
    rw [hu]
  have hpos : 1 ≤ SpiralIterator.spiralLen (toUnsigned M) := by
    unfold SpiralIterator.spiralLen
    exact Nat.mul_pos (by omega) (by omega)
  have hlen := SpiralIterator.track_length (SpiralIterator.new w h M u v)
  rw [hmr] at hlen
  have htake : (SpiralIterator.track (SpiralIterator.new w h M u v)).take k =
      SpiralIterator.track (SpiralIterator.new w h M u v) :=
    List.take_of_length_le (by omega)
  refine ⟨_, hF, ?_, ?_⟩
  · intro a b
    rw [SpiralIterator.successes_append_false _ _ hall, htake,
      SpiralIterator.mem_coords_track _ hfresh hM' hin a b, hmr, hu]
    rfl
  · intro hclip
    rw [SpiralIterator.successes_append_false _ _ hall, htake,
      SpiralIterator.track_length_unclipped _ hfresh hM', hmr, hs]
    rw [hmr, hu]
    exact hclip

/-- C10, at a concrete input: a 5x5 grid, start pixel `(2,2)`, ring bound 2, 20 calls. -/
theorem C10_witness :
    ∃ l, SpiralIterator.calls (SpiralIterator.spiralFuel (toUnsigned 2) + 0) 20
        (SpiralIterator.new 5 5 2 (1 / 2) (1 / 2)) = some l ∧
      (∀ a b : Int, (a, b) ∈ coords (successes l) ↔
        0 ≤ a ∧ a < 5 ∧ 0 ≤ b ∧ b < 5 ∧
        -2 ≤ a - castInt (toFloat ((1 / 2 : ℚ) * toFloat ((5 : Int) : ℚ))) ∧
        a - castInt (toFloat ((1 / 2 : ℚ) * toFloat ((5 : Int) : ℚ))) ≤ 2 ∧
        -(2 - 1) ≤ b - castInt (toFloat ((1 / 2 : ℚ) * toFloat ((5 : Int) : ℚ))) ∧
        b - castInt (toFloat ((1 / 2 : ℚ) * toFloat ((5 : Int) : ℚ))) ≤ 2) ∧
      (0 ≤ castInt (toFloat ((1 / 2 : ℚ) * toFloat ((5 : Int) : ℚ))) - 2 ∧
        castInt (toFloat ((1 / 2 : ℚ) * toFloat ((5 : Int) : ℚ))) + 2 < 5 ∧
        0 ≤ castInt (toFloat ((1 / 2 : ℚ) * toFloat ((5 : Int) : ℚ))) - (2 - 1) ∧
        castInt (toFloat ((1 / 2 : ℚ) * toFloat ((5 : Int) : ℚ))) + 2 < 5 →
        ((successes l).length : Int) = 2 * 2 * (2 * 2 + 1)) :=
  C10_sampled_set 5 5 2 (1 / 2) (1 / 2) 20 0
    (by
      have hc : castInt (toFloat ((1 / 2 : ℚ) * toFloat ((5 : Int) : ℚ))) = 2 := by
        rw [Int.cast_ofNat, toFloat_five, show (1 / 2 : ℚ) * 5 = 5 / 2 by norm_num,
          toFloat_five_halves]
        norm_num [castInt]; rfl
      rw [hc]; decide)
    (by decide) (by decide) (by decide)

/-- C2, as the code has it: `pick` clamps the tolerance radius to at least 1
(`osg::maximum(_buffer, 1)`).  Every pixel a pick query reads lies inside the image and within
`max(M, 1)` rings of the start pixel; the pixels read are, in order, the coordinates the calls
of `next()` produce, up to and including the first whose pixel decodes to a nonzero
identifier; the query reports a miss exactly when every pixel it reads decodes to 0.  With
tolerance radius 0 the query is the query with tolerance radius 1: for a radius of at most 1
and a start pixel inside the image, the search produces the start pixel and then the pixels to
its right, upper right, top, upper left and left that lie inside the image. -/
theorem C2_reads_within_clamped_radius (img : Image) (buffer : Int) (vp : Viewport) (x y : ℚ)
    (action : ActionType) (extra : Nat) (hb : buffer < 2 ^ 31) :
    (∃ l st,
      SpiralIterator.calls
          (SpiralIterator.spiralFuel (toUnsigned (max buffer 1)) + extra)
          (SpiralIterator.spiralFuel (toUnsigned (max buffer 1)) + extra)
          (SpiralIterator.new img.s img.t (max buffer 1)
            (viewportFraction x vp.x vp.width) (viewportFraction y vp.y vp.height)) = some l ∧
      pick img buffer 0 vp x y action
          (SpiralIterator.spiralFuel (toUnsigned (max buffer 1)) + extra) = some st ∧
      (∀ p ∈ st.reads,
        |p.1 - castInt (toFloat (viewportFraction x vp.x vp.width * toFloat (img.s : ℚ)))| ≤
          max buffer 1 ∧
        |p.2 - castInt (toFloat (viewportFraction y vp.y vp.height * toFloat (img.t : ℚ)))| ≤
          max buffer 1 ∧
        0 ≤ p.1 ∧ p.1 < img.s ∧ 0 ≤ p.2 ∧ p.2 < img.t) ∧
      (∃ e ∈ l, e.1 = false) ∧ successes (beforeFirstFalse l) = successes l ∧
      st.reads = readUntilHit img (coords (successes l)) ∧
      (st.fired.filter isOnPick = [Notification.onPick OSGEARTH_OBJECTID_EMPTY action] ↔
        ∀ p ∈ st.reads, decodeID (img.channels p.1 p.2) = 0) ∧
      (buffer ≤ 1 →
        0 ≤ castInt (toFloat (viewportFraction x vp.x vp.width * toFloat (img.s : ℚ))) ∧
        castInt (toFloat (viewportFraction x vp.x vp.width * toFloat (img.s : ℚ))) < img.s ∧
        0 ≤ castInt (toFloat (viewportFraction y vp.y vp.height * toFloat (img.t : ℚ))) ∧
        castInt (toFloat (viewportFraction y vp.y vp.height * toFloat (img.t : ℚ))) < img.t →
        coords (successes l) =
          [(castInt (toFloat (viewportFraction x vp.x vp.width * toFloat (img.s : ℚ))),
              castInt (toFloat (viewportFraction y vp.y vp.height * toFloat (img.t : ℚ)))),
            (castInt (toFloat (viewportFraction x vp.x vp.width * toFloat (img.s : ℚ))) + 1,
              castInt (toFloat (viewportFraction y vp.y vp.height * toFloat (img.t : ℚ)))),
            (castInt (toFloat (viewportFraction x vp.x vp.width * toFloat (img.s : ℚ))) + 1,
              castInt (toFloat (viewportFraction y vp.y vp.height * toFloat (img.t : ℚ))) + 1),
            (castInt (toFloat (viewportFraction x vp.x vp.width * toFloat (img.s : ℚ))),
              castInt (toFloat (viewportFraction y vp.y vp.height * toFloat (img.t : ℚ))) + 1),
            (castInt (toFloat (viewportFraction x vp.x vp.width * toFloat (img.s : ℚ))) - 1,
              castInt (toFloat (viewportFraction y vp.y vp.height * toFloat (img.t : ℚ))) + 1),
            (castInt (toFloat (viewportFraction x vp.x vp.width * toFloat (img.s : ℚ))) - 1,
              castInt (toFloat (viewportFraction y vp.y vp.height * toFloat (img.t : ℚ))))].filter
            (inGrid img.s img.t))) ∧
    ∀ fuel, pick img 0 0 vp x y action fuel = pick img 1 0 vp x y action fuel := by
  constructor
  · have hfresh := SpiralIterator.fresh_new img.s img.t (max buffer 1)
      (viewportFraction x vp.x vp.width) (viewportFraction y vp.y vp.height)
    obtain ⟨l, st, hl, hst, hfired, hreads, hfalse, hsame, hreadsEq, hsucc⟩ :=
      pickFrom_fresh img action
        (SpiralIterator.new img.s img.t (max buffer 1)
          (viewportFraction x vp.x vp.width) (viewportFraction y vp.y vp.height))
        hfresh (SpiralIterator.spiralFuel (toUnsigned (max buffer 1)) + extra)
        (Nat.le_add_right _ _)
    have h1 : (1 : Int) ≤ max buffer 1 := le_max_right _ _
    have hu := SpiralIterator.toUnsigned_of_range (max buffer 1) (by omega)
      (by have : max buffer 1 < 2 ^ 31 := max_lt hb (by decide)
          omega)
    have hmr : (SpiralIterator.new img.s img.t (max buffer 1)
        (viewportFraction x vp.x vp.width) (viewportFraction y vp.y vp.height))._maxRing =
          toUnsigned (max buffer 1) := rfl
    refine ⟨l, st, hl, ?_, ?_, hfalse, hsame, hreadsEq, ?_, ?_⟩
    · unfold pick
      rw [if_neg (by simp)]
      exact hst
    · intro p hp
      have hp' := hreads p hp
      unfold coords at hp'
      obtain ⟨it1, hit1, rfl⟩ := List.mem_map.1 hp'
      obtain ⟨hon, hox, hoy, hw, hh, hout, _, hring⟩ :=
        SpiralIterator.track_state _ hfresh it1 hit1
      have hbox := SpiralIterator.onTrack_box it1 hon
      rw [hmr] at hring
      have hring' : ((it1._ring : Nat) : Int) ≤ max buffer 1 := by
        have h2 : it1._ring ≤ toUnsigned (max buffer 1) := by
          have : 1 ≤ toUnsigned (max buffer 1) := by omega
          rw [max_eq_left this] at hring
          exact hring
        omega
      have hox' : it1._offsetX =
          castInt (toFloat (viewportFraction x vp.x vp.width * toFloat (img.s : ℚ))) := hox
      have hoy' : it1._offsetY =
          castInt (toFloat (viewportFraction y vp.y vp.height * toFloat (img.t : ℚ))) := hoy
      have hw' : it1._w = img.s := hw
      have hh' : it1._h = img.t := hh
      unfold SpiralIterator.outside at hout
      simp only [SpiralIterator.s, SpiralIterator.t]
      rw [abs_le, abs_le]
      omega
    · have hpick : st.fired.filter isOnPick =
          [Notification.onPick
            (firstNonzero
              ((coords (successes l)).map (fun c => decodeID (img.channels c.1 c.2))))
            action] := by
        rw [hfired]
        unfold backwardsCompat
        split_ifs <;> simp [isOnPick]
      rw [hpick, hreadsEq, readUntilHit_zero_iff]
      have hz := firstNonzero_eq_zero_iff
        ((coords (successes l)).map (fun c => decodeID (img.channels c.1 c.2)))
      constructor
      · intro heq
        have h0 : firstNonzero
            ((coords (successes l)).map (fun c => decodeID (img.channels c.1 c.2))) = 0 := by
          simpa [OSGEARTH_OBJECTID_EMPTY] using heq
        intro c hc
        exact hz.1 h0 _ (List.mem_map.2 ⟨c, hc, rfl⟩)
      · intro hall
        have h0 : firstNonzero
            ((coords (successes l)).map (fun c => decodeID (img.channels c.1 c.2))) = 0 := by
          apply hz.2
          intro id hid
          obtain ⟨c, hc, rfl⟩ := List.mem_map.1 hid
          exact hall c hc
        rw [h0]
        rfl
    · intro hb1 hstart
      have hm1 : max buffer 1 = 1 := max_eq_right hb1
      have hM : (SpiralIterator.new img.s img.t (max buffer 1)
          (viewportFraction x vp.x vp.width) (viewportFraction y vp.y vp.height))._maxRing =
            1 := by
        rw [hmr]
        have : ((toUnsigned (max buffer 1) : Nat) : Int) = 1 := by rw [hu, hm1]
        omega
      have hin : ¬ (SpiralIterator.new img.s img.t (max buffer 1)
          (viewportFraction x vp.x vp.width)
          (viewportFraction y vp.y vp.height)).startOutside := by
        unfold SpiralIterator.startOutside
        show ¬ (castInt (toFloat (viewportFraction x vp.x vp.width * toFloat (img.s : ℚ))) < 0 ∨
          castInt (toFloat (viewportFraction x vp.x vp.width * toFloat (img.s : ℚ))) ≥ img.s ∨
          castInt (toFloat (viewportFraction y vp.y vp.height * toFloat (img.t : ℚ))) < 0 ∨
          castInt (toFloat (viewportFraction y vp.y vp.height * toFloat (img.t : ℚ))) ≥ img.t)
        omega
      have hlen := SpiralIterator.track_length (SpiralIterator.new img.s img.t (max buffer 1)
        (viewportFraction x vp.x vp.width) (viewportFraction y vp.y vp.height))
      rw [hmr] at hlen
      rw [hsucc, List.take_of_length_le
        (by unfold SpiralIterator.spiralFuel; omega),
        SpiralIterator.coords_track_ring_one _ hfresh hM hin]
      rfl
  · intro fuel
    rfl

/-- C2 (amended), at a concrete input: a 3x3 image of zero pixels, click at its centre,
tolerance radius 0. -/
theorem C2_witness :
    (∃ l st,
      SpiralIterator.calls
          (SpiralIterator.spiralFuel (toUnsigned (max 0 1)) + 0)
          (SpiralIterator.spiralFuel (toUnsigned (max 0 1)) + 0)
          (SpiralIterator.new 3 3 (max 0 1)
            (viewportFraction (3 / 2) 0 3) (viewportFraction (3 / 2) 0 3)) = some l ∧
      pick ⟨3, 3, fun _ _ => ⟨0, 0, 0, 0⟩⟩ 0 0 ⟨0, 0, 3, 3⟩ (3 / 2) (3 / 2)
          ActionType.ACTION_CLICK
          (SpiralIterator.spiralFuel (toUnsigned (max 0 1)) + 0) = some st ∧
      (∀ p ∈ st.reads,
        |p.1 - castInt (toFloat (viewportFraction (3 / 2) 0 3 * toFloat ((3 : Int) : ℚ)))| ≤
          max 0 1 ∧
        |p.2 - castInt (toFloat (viewportFraction (3 / 2) 0 3 * toFloat ((3 : Int) : ℚ)))| ≤
          max 0 1 ∧
        0 ≤ p.1 ∧ p.1 < 3 ∧ 0 ≤ p.2 ∧ p.2 < 3) ∧
      (∃ e ∈ l, e.1 = false) ∧ successes (beforeFirstFalse l) = successes l ∧
      st.reads = readUntilHit ⟨3, 3, fun _ _ => ⟨0, 0, 0, 0⟩⟩ (coords (successes l)) ∧
      (st.fired.filter isOnPick =
          [Notification.onPick OSGEARTH_OBJECTID_EMPTY ActionType.ACTION_CLICK] ↔
        ∀ p ∈ st.reads, decodeID ((fun _ _ => (⟨0, 0, 0, 0⟩ : Channels)) p.1 p.2) = 0) ∧
      ((0 : Int) ≤ 1 →
        0 ≤ castInt (toFloat (viewportFraction (3 / 2) 0 3 * toFloat ((3 : Int) : ℚ))) ∧
        castInt (toFloat (viewportFraction (3 / 2) 0 3 * toFloat ((3 : Int) : ℚ))) < 3 ∧
        0 ≤ castInt (toFloat (viewportFraction (3 / 2) 0 3 * toFloat ((3 : Int) : ℚ))) ∧
        castInt (toFloat (viewportFraction (3 / 2) 0 3 * toFloat ((3 : Int) : ℚ))) < 3 →
        coords (successes l) =
          [(castInt (toFloat (viewportFraction (3 / 2) 0 3 * toFloat ((3 : Int) : ℚ))),
              castInt (toFloat (viewportFraction (3 / 2) 0 3 * toFloat ((3 : Int) : ℚ)))),
            (castInt (toFloat (viewportFraction (3 / 2) 0 3 * toFloat ((3 : Int) : ℚ))) + 1,
              castInt (toFloat (viewportFraction (3 / 2) 0 3 * toFloat ((3 : Int) : ℚ)))),
            (castInt (toFloat (viewportFraction (3 / 2) 0 3 * toFloat ((3 : Int) : ℚ))) + 1,
              castInt (toFloat (viewportFraction (3 / 2) 0 3 * toFloat ((3 : Int) : ℚ))) + 1),
            (castInt (toFloat (viewportFraction (3 / 2) 0 3 * toFloat ((3 : Int) : ℚ))),
              castInt (toFloat (viewportFraction (3 / 2) 0 3 * toFloat ((3 : Int) : ℚ))) + 1),
            (castInt (toFloat (viewportFraction (3 / 2) 0 3 * toFloat ((3 : Int) : ℚ))) - 1,
              castInt (toFloat (viewportFraction (3 / 2) 0 3 * toFloat ((3 : Int) : ℚ))) + 1),
            (castInt (toFloat (viewportFraction (3 / 2) 0 3 * toFloat ((3 : Int) : ℚ))) - 1,
              castInt (toFloat (viewportFraction (3 / 2) 0 3 * toFloat ((3 : Int) : ℚ))))].filter
            (inGrid 3 3))) ∧
    ∀ fuel, pick ⟨3, 3, fun _ _ => ⟨0, 0, 0, 0⟩⟩ 0 0 ⟨0, 0, 3, 3⟩ (3 / 2) (3 / 2)
        ActionType.ACTION_CLICK fuel =
      pick ⟨3, 3, fun _ _ => ⟨0, 0, 0, 0⟩⟩ 1 0 ⟨0, 0, 3, 3⟩ (3 / 2) (3 / 2)
        ActionType.ACTION_CLICK fuel :=
  C2_reads_within_clamped_radius ⟨3, 3, fun _ _ => ⟨0, 0, 0, 0⟩⟩ 0 ⟨0, 0, 3, 3⟩ (3 / 2) (3 / 2)
    ActionType.ACTION_CLICK 0 (by decide)

/-- C2 fails as stated: with tolerance radius 0 on a 3x3 image whose only nonzero pixel is
`(2,1)` (identifier 7), a click at the centre starts at pixel `(1,1)`, which decodes to 0;
the query nevertheless reads `(2,1)`, one ring away from the start pixel, and reports
identifier 7 instead of a miss. -/
theorem C2_counterexample :
    pick ⟨3, 3, fun x y => if x = 2 ∧ y = 1 then ⟨0, 0, 0, 7⟩ else ⟨0, 0, 0, 0⟩⟩ 0 0
        ⟨0, 0, 3, 3⟩ (3 / 2) (3 / 2) ActionType.ACTION_CLICK 8 =
      some { hit := true,
             fired := [Notification.onPick 7 ActionType.ACTION_CLICK, Notification.onClick 7],
             reads := [(1, 1), (2, 1)] } ∧
    castInt (toFloat (viewportFraction (3 / 2) 0 3 * toFloat ((3 : Int) : ℚ))) = 1 ∧
    decodeID (if (1 : Int) = 2 ∧ (1 : Int) = 1 then ⟨0, 0, 0, 7⟩ else ⟨0, 0, 0, 0⟩) = 0 ∧
    ¬ (|(2 : Int) - 1| ≤ 0) := by
  have hvf : viewportFraction (3 / 2) 0 3 = 1 / 2 := by
    unfold viewportFraction
    rw [sub_zero, toDouble_three_halves, show (3 / 2 : ℚ) / 3 = 1 / 2 by norm_num,
      toDouble_half, toFloat_half]
  have hc : castInt (toFloat (viewportFraction (3 / 2) 0 3 * toFloat ((3 : Int) : ℚ))) = 1 := by
    rw [hvf, Int.cast_ofNat, toFloat_three, show (1 / 2 : ℚ) * 3 = 3 / 2 by norm_num,
      toFloat_three_halves]
    norm_num [castInt]; rfl
  have hnew : SpiralIterator.new 3 3 (max 0 1) (viewportFraction (3 / 2) 0 3)
      (viewportFraction (3 / 2) 0 3) = ⟨1, 1, 0, 0, 0, 3, 3, 1, 1, 0⟩ := by
    simp only [SpiralIterator.new, hc]
    rfl
  refine ⟨?_, hc, by decide, by decide⟩
  unfold pick
  rw [if_neg (by simp)]
  simp only []
  rw [hnew]
  decide

end osgEarth
